import Mathlib

/-!
# Alpha ptrace: register access and breakpoint-based single stepping

A shallow embedding of `arch/alpha/kernel/ptrace.c` (linux-zero-4.10.y):
the register-location resolver (`regoff`, `get_reg_addr`, `get_reg`,
`put_reg`), the tracee memory helpers (`read_int`, `write_int`) and the
single-step engine (`ptrace_set_bpt`, `ptrace_cancel_bpt`,
`user_enable_single_step`, `user_disable_single_step`).

Conventions.
* C unsigned integers are natural numbers; arithmetic that can wrap is
  reduced modulo `2^64` (or `2^32`) explicitly where the C code computes it.
* `int` values (`res`, `nsaved`, `displ`) are integers.
* Everything the file takes from headers that are not part of the
  translated source (structure layouts, the IEEE masks and helpers) is a
  field of the parameter `arch`.
* A pointer returned by `get_reg_addr` is a `reg_addr`: one of the two
  `pcb` fields, the variable `zero`, or an 8-byte cell of the task stack
  page named by its byte offset.
* Tracee memory is byte-granular: `access_process_vm` copies bytes one after
  the other and stops at the first byte it cannot access, so a 4-byte copy
  can be short, and two 4-byte words at addresses less than 4 apart overlap.
-/

namespace AlphaPtrace

/-! ## Header parameters -/

/-- Fields of `struct pt_regs` that the offset table names. -/
inductive pt_regs_field where
  | r0 | r1 | r2 | r3 | r4 | r5 | r6 | r7 | r8
  | r16 | r17 | r18 | r19 | r20 | r21 | r22 | r23 | r24 | r25 | r26 | r27 | r28
  | gp | pc
  deriving DecidableEq, Repr

/-- Fields of `struct switch_stack` that the offset table names. -/
inductive switch_stack_field where
  | r9 | r10 | r11 | r12 | r13 | r14 | r15
  | fp (i : Nat)
  deriving DecidableEq, Repr

/-- What `ptrace.c` takes from headers: the page size, the sizes and field
offsets of the two saved-context blocks, and the IEEE floating-point masks
and helpers of `asm/fpu.h`. -/
structure arch where
  PAGE_SIZE : Nat
  sizeof_pt_regs : Nat
  sizeof_switch_stack : Nat
  offsetof_pt_regs : pt_regs_field → Nat
  offsetof_switch_stack : switch_stack_field → Nat
  IEEE_SW_MASK : Nat
  FPCR_DYN_MASK : Nat
  swcr_update_status : Nat → Nat → Nat
  ieee_swcr_to_fpcr : Nat → Nat

/-- `#define BREAKINST 0x00000080` (call_pal bpt). -/
def BREAKINST : Nat := 0x00000080

/-- The errno value returned (negated) on a short copy. -/
def EIO : Int := 5

/-- `REG_PC = 64` of the register-index enum. -/
def REG_PC : Nat := 64

/-- `PT_REG(reg)`: offset of a trap-frame field from the stack page. -/
def PT_REG (A : arch) (reg : pt_regs_field) : Int :=
  (A.PAGE_SIZE : Int) * 2 - A.sizeof_pt_regs + A.offsetof_pt_regs reg

/-- `SW_REG(reg)`: offset of a switch-frame field from the stack page. -/
def SW_REG (A : arch) (reg : switch_stack_field) : Int :=
  (A.PAGE_SIZE : Int) * 2 - A.sizeof_pt_regs - A.sizeof_switch_stack
    + A.offsetof_switch_stack reg

/-- The table `regoff[]`: 65 entries, indices 30 and 31 hold `-1`. -/
def regoff (A : arch) : List Int :=
  [ PT_REG A .r0, PT_REG A .r1, PT_REG A .r2, PT_REG A .r3,
    PT_REG A .r4, PT_REG A .r5, PT_REG A .r6, PT_REG A .r7,
    PT_REG A .r8, SW_REG A .r9, SW_REG A .r10, SW_REG A .r11,
    SW_REG A .r12, SW_REG A .r13, SW_REG A .r14, SW_REG A .r15,
    PT_REG A .r16, PT_REG A .r17, PT_REG A .r18, PT_REG A .r19,
    PT_REG A .r20, PT_REG A .r21, PT_REG A .r22, PT_REG A .r23,
    PT_REG A .r24, PT_REG A .r25, PT_REG A .r26, PT_REG A .r27,
    PT_REG A .r28, PT_REG A .gp, -1, -1,
    SW_REG A (.fp 0), SW_REG A (.fp 1), SW_REG A (.fp 2), SW_REG A (.fp 3),
    SW_REG A (.fp 4), SW_REG A (.fp 5), SW_REG A (.fp 6), SW_REG A (.fp 7),
    SW_REG A (.fp 8), SW_REG A (.fp 9), SW_REG A (.fp 10), SW_REG A (.fp 11),
    SW_REG A (.fp 12), SW_REG A (.fp 13), SW_REG A (.fp 14), SW_REG A (.fp 15),
    SW_REG A (.fp 16), SW_REG A (.fp 17), SW_REG A (.fp 18), SW_REG A (.fp 19),
    SW_REG A (.fp 20), SW_REG A (.fp 21), SW_REG A (.fp 22), SW_REG A (.fp 23),
    SW_REG A (.fp 24), SW_REG A (.fp 25), SW_REG A (.fp 26), SW_REG A (.fp 27),
    SW_REG A (.fp 28), SW_REG A (.fp 29), SW_REG A (.fp 30), SW_REG A (.fp 31),
    PT_REG A .pc ]

/-! ## State -/

/-- The tracee address space seen through `access_process_vm`: the byte
stored at each address, and whether a forced read or a forced write of
that byte succeeds. -/
structure vm where
  byte : Nat → Fin 256
  rd : Nat → Bool
  wr : Nat → Bool

/-- The state `ptrace.c` works on: the file-level variable `zero`, the
fields of `task_thread_info(task)` it uses, the 8-byte cells of the task
stack page keyed by byte offset, and the tracee address space. -/
structure state where
  /-- The variable `static unsigned long zero`. -/
  zero : Nat
  /-- The field `pcb.usp`. -/
  usp : Nat
  /-- The field `pcb.unique`. -/
  unique : Nat
  ieee_state : Nat
  bpt_nsaved : Int
  /-- The array `bpt_addr[2]`. -/
  bpt_addr : Nat → Nat
  /-- The array `bpt_insn[2]`. -/
  bpt_insn : Nat → Nat
  /-- The cell at `task_stack_page(task) + off`. -/
  stack : Int → Nat
  /-- The tracee memory. -/
  mm : vm

/-- The places an `unsigned long *` returned by `get_reg_addr` can point to. -/
inductive reg_addr where
  | usp
  | unique
  | zero
  | stack_page (off : Int)
  deriving DecidableEq, Repr

/-- Dereference: the value of `*addr`. -/
def deref (s : state) : reg_addr → Nat
  | .usp => s.usp
  | .unique => s.unique
  | .zero => s.zero
  | .stack_page off => s.stack off

/-- Assignment: the effect of `*addr = data`. -/
def assign (s : state) (addr : reg_addr) (data : Nat) : state :=
  match addr with
  | .usp => { s with usp := data }
  | .unique => { s with unique := data }
  | .zero => { s with zero := data }
  | .stack_page off =>
      { s with stack := fun o => if o = off then data else s.stack o }

/-! ## Register access -/

/-- The function `get_reg_addr`: the address of register `regno`, and the
state after the call (the zero branch executes `zero = 0`). -/
def get_reg_addr (A : arch) (s : state) (regno : Nat) : reg_addr × state :=
  if regno = 30 then
    (.usp, s)
  else if regno = 65 then
    (.unique, s)
  else if regno = 31 ∨ regno > 65 then
    (.zero, { s with zero := 0 })
  else
    (.stack_page ((regoff A).getD regno 0), s)

/-- The function `get_reg`: the contents of register `regno`, and the state
after the call. -/
def get_reg (A : arch) (s : state) (regno : Nat) : Nat × state :=
  if regno = 63 then
    let r := get_reg_addr A s regno
    let fpcr := deref r.2 r.1
    let swcr := r.2.ieee_state &&& A.IEEE_SW_MASK
    let swcr := A.swcr_update_status swcr fpcr
    (fpcr ||| swcr, r.2)
  else
    let r := get_reg_addr A s regno
    (deref r.2 r.1, r.2)

/-- The function `put_reg`: write `data` to register `regno`; returns the
status (always 0) and the state after the call. The complement
`~IEEE_SW_MASK` is taken in 64 bits. -/
def put_reg (A : arch) (s : state) (regno : Nat) (data : Nat) : Int × state :=
  if regno = 63 then
    let s1 := { s with ieee_state :=
      (s.ieee_state &&& ((2 ^ 64 - 1) ^^^ A.IEEE_SW_MASK))
        ||| (data &&& A.IEEE_SW_MASK) }
    let data := (data &&& A.FPCR_DYN_MASK) ||| A.ieee_swcr_to_fpcr data
    let r := get_reg_addr A s1 regno
    (0, assign r.2 r.1 data)
  else
    let r := get_reg_addr A s regno
    (0, assign r.2 r.1 data)

/-! ## Tracee memory -/

/-- How many of the `len` bytes starting at `addr` can be copied before the
first byte for which `ok` fails. -/
def vm_span (ok : Nat → Bool) (addr : Nat) : Nat → Nat
  | 0 => 0
  | len + 1 => if ok addr then vm_span ok (addr + 1) len + 1 else 0

/-- Modelled from the spec: `access_process_vm` without `FOLL_WRITE`, the
copy of `len` bytes from the tracee address space. It returns the
number of bytes copied and those bytes; the copy stops at the first byte
that cannot be read, so a short count means failure. -/
def access_process_vm_read (m : vm) (addr len : Nat) : Nat × List (Fin 256) :=
  let copied := vm_span m.rd addr len
  (copied, (List.range copied).map fun k => m.byte (addr + k))

/-- Modelled from the spec: `access_process_vm` with `FOLL_WRITE`, the
copy of the bytes `buf` into the tracee address space. It returns
the number of bytes copied and the memory afterwards; the copy stops at the
first byte that cannot be written, so a short count means failure. -/
def access_process_vm_write (m : vm) (addr : Nat) (buf : List (Fin 256)) :
    Nat × vm :=
  let copied := vm_span m.wr addr buf.length
  (copied,
    { m with byte := fun x =>
        if addr ≤ x ∧ x < addr + copied then buf.getD (x - addr) 0
        else m.byte x })

/-- The integer whose little-endian bytes are `bs` (Alpha is little-endian). -/
def le_word : List (Fin 256) → Nat
  | [] => 0
  | b :: bs => b.val + 256 * le_word bs

/-- The `n` low little-endian bytes of `w`. -/
def le_bytes (w : Nat) : Nat → List (Fin 256)
  | 0 => []
  | n + 1 => Fin.ofNat w :: le_bytes (w / 256) n

/-- The function `read_int`: fetch the 4-byte `int` at `addr`; `-EIO`
unless all four bytes were copied. -/
def read_int (m : vm) (addr : Nat) : Except Int Nat :=
  let r := access_process_vm_read m addr 4
  if r.1 = 4 then .ok (le_word r.2) else .error (- EIO)

/-- The function `write_int`: store the 4-byte `int` `data` at `addr`;
returns 0, or `-EIO` unless all four bytes were copied, and the memory
afterwards. -/
def write_int (m : vm) (addr : Nat) (data : Nat) : Int × vm :=
  let r := access_process_vm_write m addr (le_bytes data 4)
  (if r.1 = 4 then 0 else - EIO, r.2)

/-! ## Single stepping -/

/-- The cast `(s32) x` of a 32-bit pattern. -/
def s32 (x : Nat) : Int :=
  if x % 2 ^ 32 < 2 ^ 31 then ((x % 2 ^ 32 : Nat) : Int)
  else ((x % 2 ^ 32 : Nat) : Int) - 2 ^ 32

/-- Conversion of an integer to `unsigned long`. -/
def u64 (x : Int) : Nat := (x % 2 ^ 64).toNat

/-- The statement `bpt_addr[i] = a`. -/
def set_bpt_addr (s : state) (i a : Nat) : state :=
  { s with bpt_addr := fun j => if j = i then a else s.bpt_addr j }

/-- The statement `bpt_insn[i] = w`. -/
def set_bpt_insn (s : state) (i w : Nat) : state :=
  { s with bpt_insn := fun j => if j = i then w else s.bpt_insn j }

/-- The loop `for (i = 0; i < nsaved; ++i)` of `ptrace_set_bpt`, started at
index `i` with `count = nsaved - i` iterations left. Returns the `res` with
which the function leaves the loop (0 when the loop ran to its end) and the
state at that point. -/
def install_bpts : Nat → Nat → state → Int × state
  | 0, _, s => (0, s)
  | count + 1, i, s =>
    match read_int s.mm (s.bpt_addr i) with
    | .error res => (res, s)
    | .ok insn =>
      let s1 := set_bpt_insn s i insn
      let w := write_int s1.mm (s1.bpt_addr i) BREAKINST
      let s2 := { s1 with mm := w.2 }
      if w.1 < 0 then (w.1, s2) else install_bpts count (i + 1) s2

/-- The first half of `ptrace_set_bpt` after the fetch: classify `insn` and
fill `bpt_addr`; returns `nsaved` and the state. -/
def schedule_bpts (A : arch) (s : state) (pc insn : Nat) : Nat × state :=
  let op_code := insn >>> 26
  if op_code ≥ 0x30 then
    let displ : Int := s32 ((insn <<< 11) % 2 ^ 32) >>> (9 : Nat)
    let s1 := set_bpt_addr s 0 ((pc + 4) % 2 ^ 64)
    if displ ≠ 0 then
      (2, set_bpt_addr s1 1 (u64 (((pc + 4 : Nat) : Int) + displ)))
    else
      (1, s1)
  else if op_code = 0x1a then
    let reg_b := (insn >>> 16) &&& 0x1f
    let g := get_reg A s reg_b
    (1, set_bpt_addr g.2 0 g.1)
  else
    (1, set_bpt_addr s 0 ((pc + 4) % 2 ^ 64))

/-- The function `ptrace_set_bpt`: returns `res` and the state afterwards. -/
def ptrace_set_bpt (A : arch) (s : state) : Int × state :=
  let g := get_reg A s REG_PC
  let pc := g.1
  match read_int g.2.mm pc with
  | .error res => (res, g.2)
  | .ok insn =>
    let p := schedule_bpts A g.2 pc insn
    let q := install_bpts p.1 0 p.2
    if q.1 < 0 then q
    else (0, { q.2 with bpt_nsaved := (p.1 : Int) })

/-- The loop `for (i = 0; i < nsaved; ++i)` of `ptrace_cancel_bpt`, started
at index `i` with `count` iterations left; the result of `write_int` is
ignored. -/
def restore_bpts : Nat → Nat → state → state
  | 0, _, s => s
  | count + 1, i, s =>
    let w := write_int s.mm (s.bpt_addr i) (s.bpt_insn i)
    restore_bpts count (i + 1) { s with mm := w.2 }

/-- The function `ptrace_cancel_bpt`: returns `(nsaved != 0)` and the state
afterwards. -/
def ptrace_cancel_bpt (s : state) : Int × state :=
  let nsaved := s.bpt_nsaved
  let s1 := { s with bpt_nsaved := 0 }
  let nsaved := if nsaved > 2 then 2 else nsaved
  (if nsaved ≠ 0 then 1 else 0, restore_bpts nsaved.toNat 0 s1)

/-- The function `user_enable_single_step`. -/
def user_enable_single_step (s : state) : state :=
  { s with bpt_nsaved := -1 }

/-- The function `user_disable_single_step`. -/
def user_disable_single_step (s : state) : state :=
  (ptrace_cancel_bpt s).2

/-- The word stored in the four bytes at `addr`, whether or not they can be
copied. -/
def word_at (m : vm) (addr : Nat) : Nat :=
  le_word [m.byte addr, m.byte (addr + 1), m.byte (addr + 2), m.byte (addr + 3)]

/-- The bytes after a complete 4-byte store of `w` at `addr`. -/
def store4 (b : Nat → Fin 256) (addr w : Nat) : Nat → Fin 256 :=
  fun x => if addr ≤ x ∧ x < addr + 4 then (le_bytes w 4).getD (x - addr) 0 else b x

/-- The branch displacement in the words of the specification: bits [20:0]
of the instruction, sign-extended as a 21-bit two's-complement integer and
multiplied by 4. -/
def branch_displacement (insn : Nat) : Int :=
  (if insn % 2 ^ 21 < 2 ^ 20 then ((insn % 2 ^ 21 : Nat) : Int)
   else ((insn % 2 ^ 21 : Nat) : Int) - 2 ^ 21) * 4

/-- An index that `get_reg_addr` sends to the shared zero cell. -/
def zero_aliased (regno : Nat) : Prop := regno = 31 ∨ regno > 65

/-! ## Concrete instances used to evaluate the definitions -/

/-- A layout with the shape of the Alpha headers: 8 KiB pages, a 232-byte
trap frame and a 320-byte switch frame. The two IEEE helpers are the
simplest possible ones; this instance only serves to evaluate the
definitions on registers other than 63. -/
def sample_arch : arch where
  PAGE_SIZE := 8192
  sizeof_pt_regs := 232
  sizeof_switch_stack := 320
  offsetof_pt_regs := fun f =>
    match f with
    | .r0 => 0 | .r1 => 8 | .r2 => 16 | .r3 => 24 | .r4 => 32 | .r5 => 40
    | .r6 => 48 | .r7 => 56 | .r8 => 64 | .r19 => 72 | .r20 => 80
    | .r21 => 88 | .r22 => 96 | .r23 => 104 | .r24 => 112 | .r25 => 120
    | .r26 => 128 | .r27 => 136 | .r28 => 144 | .pc => 192 | .gp => 200
    | .r16 => 208 | .r17 => 216 | .r18 => 224
  offsetof_switch_stack := fun f =>
    match f with
    | .r9 => 0 | .r10 => 8 | .r11 => 16 | .r12 => 24 | .r13 => 32
    | .r14 => 40 | .r15 => 48 | .fp i => 64 + 8 * i
  IEEE_SW_MASK := 0x7e307e
  FPCR_DYN_MASK := 3 * 2 ^ 58
  swcr_update_status := fun swcr _ => swcr
  ieee_swcr_to_fpcr := fun _ => 0

/-- An address space of readable and writable zero bytes, except for the
four bytes of the word `insn` at `pc` and of the word `next` at `pc + 4`. -/
def sample_vm (pc insn next : Nat) : vm where
  byte := fun x =>
    if pc ≤ x ∧ x < pc + 4 then (le_bytes insn 4).getD (x - pc) 0
    else if pc + 4 ≤ x ∧ x < pc + 8 then (le_bytes next 4).getD (x - (pc + 4)) 0
    else 0
  rd := fun _ => true
  wr := fun _ => true

/-- The address space `sample_vm` with only the bytes below `limit` mapped:
copies fail from `limit` on. -/
def sample_vm_upto (pc insn next limit : Nat) : vm where
  byte := (sample_vm pc insn next).byte
  rd := fun x => decide (x < limit)
  wr := fun x => decide (x < limit)

/-- A task stopped at `pc`, with all other registers 0 and no breakpoint
pending, whose memory is `m`. -/
def sample_state (pc : Nat) (m : vm) : state where
  zero := 0
  usp := 0
  unique := 0
  ieee_state := 0
  bpt_nsaved := 0
  bpt_addr := fun _ => 0
  bpt_insn := fun _ => 0
  stack := fun o => if o = PT_REG sample_arch .pc then pc else 0
  mm := m

/-- A task stopped at 0x1000 on `bis $31,$31,$31` (a sequential
instruction), with the word 0x12345678 at 0x1004. -/
def seq_task : state :=
  sample_state 0x1000 (sample_vm 0x1000 0x47ff041f 0x12345678)

/-- A task stopped at 0x1000 on `br $31` with displacement field -1 (byte
displacement -4), with the word 0x12345678 at 0x1004. -/
def branch_task : state :=
  sample_state 0x1000 (sample_vm 0x1000 0xc3ffffff 0x12345678)

/-- A task stopped at 0x1000 on `jmp $31,($27)`, with register 27 holding
0x2000. -/
def jump_task : state :=
  (put_reg sample_arch (sample_state 0x1000 (sample_vm 0x1000 0x6bfb0000 0x12345678))
    27 0x2000).2

/-- A task stopped at 0x1ff8 on `br $31` with displacement field 1 (byte
displacement 4): the fall-through word 0x1ffc is the last mapped word and
the branch target 0x2000 is not mapped. No breakpoint is pending. -/
def fault_task : state :=
  sample_state 0x1ff8 (sample_vm_upto 0x1ff8 0xc3e00001 0x12345678 0x2000)

/-- A task stopped at 0x1ffe, two bytes before the end of the mapped memory:
the instruction fetch copies 2 of the 4 bytes. -/
def short_fetch_task : state :=
  sample_state 0x1ffe (sample_vm_upto 0x1ffe 0x47ff041f 0 0x2000)

/-- The number of `write_int` calls `ptrace_cancel_bpt` makes: the trip count
of its loop, that is `bpt_nsaved` clamped to 2, or none when it is negative. -/
def cancel_writes (s : state) : Nat :=
  (if s.bpt_nsaved > 2 then 2 else s.bpt_nsaved).toNat

/-- The sequential task right after `user_enable_single_step`: the count is
the sentinel and no breakpoint is installed. -/
def stepping_task : state := user_enable_single_step seq_task

/-- The branch task after `ptrace_set_bpt` (two breakpoints installed), with
the count then corrupted to 3. -/
def bogus_task : state :=
  { (ptrace_set_bpt sample_arch branch_task).2 with bpt_nsaved := 3 }

/-- The operations of the single-step engine. -/
inductive step_op where
  | arm
  | cancel
  | enable_step
  | disable_step
  deriving DecidableEq, Repr

/-- The state after one operation; `arm` is `ptrace_set_bpt`, whether it
succeeds or fails. -/
def apply_op (A : arch) (s : state) : step_op → state
  | .arm => (ptrace_set_bpt A s).2
  | .cancel => (ptrace_cancel_bpt s).2
  | .enable_step => user_enable_single_step s
  | .disable_step => user_disable_single_step s

/-- The state after a sequence of operations. -/
def run_ops (A : arch) (s : state) : List step_op → state
  | [] => s
  | op :: ops => run_ops A (apply_op A s op) ops

/-- The values the pending count may take: 0, 1, 2 or the sentinel -1. -/
def count_ok (s : state) : Prop :=
  s.bpt_nsaved = 0 ∨ s.bpt_nsaved = 1 ∨ s.bpt_nsaved = 2 ∨ s.bpt_nsaved = -1

/-- The base-register field in the words of the specification: bits [21:16]
of the instruction word. -/
def base_field_21_16 (insn : Nat) : Nat := insn / 2 ^ 16 % 2 ^ 6

/-- Bits [20:16] of the instruction word, the Rb field of the Alpha memory
format. -/
def base_field_20_16 (insn : Nat) : Nat := insn / 2 ^ 16 % 2 ^ 5

/-- A slot of the two saved-context blocks: a member of `struct pt_regs` or
of `struct switch_stack`. -/
inductive frame_slot where
  | pt (f : pt_regs_field)
  | sw (g : switch_stack_field)
  deriving DecidableEq, Repr

/-- The offset `PT_REG` or `SW_REG` computes for a slot; `-1` for the
placeholder. -/
def slot_off (A : arch) : Option frame_slot → Int
  | some (.pt f) => PT_REG A f
  | some (.sw g) => SW_REG A g
  | none => -1

/-- The member each entry of `regoff[]` names, in table order; `none` for the
two `-1` placeholders. -/
def regslot : List (Option frame_slot) :=
  [ some (.pt .r0), some (.pt .r1), some (.pt .r2), some (.pt .r3),
    some (.pt .r4), some (.pt .r5), some (.pt .r6), some (.pt .r7),
    some (.pt .r8), some (.sw .r9), some (.sw .r10), some (.sw .r11),
    some (.sw .r12), some (.sw .r13), some (.sw .r14), some (.sw .r15),
    some (.pt .r16), some (.pt .r17), some (.pt .r18), some (.pt .r19),
    some (.pt .r20), some (.pt .r21), some (.pt .r22), some (.pt .r23),
    some (.pt .r24), some (.pt .r25), some (.pt .r26), some (.pt .r27),
    some (.pt .r28), some (.pt .gp), none, none,
    some (.sw (.fp 0)), some (.sw (.fp 1)), some (.sw (.fp 2)), some (.sw (.fp 3)),
    some (.sw (.fp 4)), some (.sw (.fp 5)), some (.sw (.fp 6)), some (.sw (.fp 7)),
    some (.sw (.fp 8)), some (.sw (.fp 9)), some (.sw (.fp 10)), some (.sw (.fp 11)),
    some (.sw (.fp 12)), some (.sw (.fp 13)), some (.sw (.fp 14)), some (.sw (.fp 15)),
    some (.sw (.fp 16)), some (.sw (.fp 17)), some (.sw (.fp 18)), some (.sw (.fp 19)),
    some (.sw (.fp 20)), some (.sw (.fp 21)), some (.sw (.fp 22)), some (.sw (.fp 23)),
    some (.sw (.fp 24)), some (.sw (.fp 25)), some (.sw (.fp 26)), some (.sw (.fp 27)),
    some (.sw (.fp 28)), some (.sw (.fp 29)), some (.sw (.fp 30)), some (.sw (.fp 31)),
    some (.pt .pc) ]

/-- The members of `struct switch_stack` among the names `switch_stack_field`
can form: `fp[i]` is one for `i < 32`. -/
def sw_member : switch_stack_field → Bool
  | .fp i => decide (i < 32)
  | _ => true

/-- A table entry that names a member. -/
def slot_member : Option frame_slot → Bool
  | some (.sw g) => sw_member g
  | some (.pt _) => true
  | none => false

/-- The check that every table entry other than 30 and 31 names a member and
that no two of them name the same member. -/
def regslot_ok : Bool :=
  (List.range 65).all fun i =>
    i == 30 || i == 31 ||
      (slot_member (regslot.getD i none) &&
        (List.range 65).all fun j =>
          i == j || j == 30 || j == 31 || regslot.getD i none != regslot.getD j none)

/-- What C guarantees of the declarations of `struct pt_regs` and
`struct switch_stack`, whatever they are: the members the table names are
8-byte objects that do not overlap and that lie inside their structure. -/
def layout_ok (A : arch) : Prop :=
  (∀ f g : pt_regs_field, f ≠ g →
    A.offsetof_pt_regs f + 8 ≤ A.offsetof_pt_regs g ∨
    A.offsetof_pt_regs g + 8 ≤ A.offsetof_pt_regs f) ∧
  (∀ f : pt_regs_field, A.offsetof_pt_regs f + 8 ≤ A.sizeof_pt_regs) ∧
  (∀ f g : switch_stack_field, sw_member f = true → sw_member g = true → f ≠ g →
    A.offsetof_switch_stack f + 8 ≤ A.offsetof_switch_stack g ∨
    A.offsetof_switch_stack g + 8 ≤ A.offsetof_switch_stack f) ∧
  (∀ g : switch_stack_field, sw_member g = true →
    A.offsetof_switch_stack g + 8 ≤ A.sizeof_switch_stack)

/-- A table index with a stored slot: 0..64 other than 30 and 31. -/
def stored_index (regno : Nat) : Prop := regno ≤ 64 ∧ regno ≠ 30 ∧ regno ≠ 31

/-- The sample layout with IEEE helpers of the kind `asm/fpu.h` defines:
the software mask is the trap-enable bits 1..6, the map bits 12..13 and the
status bits 17..22; `ieee_swcr_to_fpcr` moves the status bits up by 35, the
denormal-map bit up by 36, the inverted trap enables to the trap-disable
bits and sets the summary bit; `swcr_update_status` replaces the status
bits by those of the hardware word. -/
def fpu_arch : arch :=
  { sample_arch with
    IEEE_SW_MASK := 0x7e307e
    FPCR_DYN_MASK := 3 <<< 58
    swcr_update_status := fun swcr fpcr =>
      (swcr &&& ((2 ^ 64 - 1) ^^^ 0x7e0000)) ||| ((fpcr >>> 35) &&& 0x7e0000)
    ieee_swcr_to_fpcr := fun sw =>
      ((sw &&& 0x7e0000) <<< 35) |||
      ((sw &&& 0x1000) <<< 36) |||
      (if sw &&& 0x7e0000 ≠ 0 then 2 ^ 63 else 0) |||
      ((((2 ^ 64 - 1) ^^^ sw) &&& 0xe) <<< 48) |||
      ((((2 ^ 64 - 1) ^^^ sw) &&& 0x30) <<< 57) |||
      (if sw &&& 0x2000 ≠ 0 then 2 ^ 60 ||| 2 ^ 61 else 0) |||
      ((((2 ^ 64 - 1) ^^^ sw) &&& 0x40) <<< 41) }

/-- A task whose float state has bit 31 set (outside the software mask) and
bit 1 set (inside it). -/
def fpu_task : state := { seq_task with ieee_state := 0x80000002 }

/-! ## Register access: theorems -/

/-- C1: for every state, every value and every register index from 0 to 65
other than 31 and 63, `put_reg` returns 0 and a following `get_reg` of the
same index returns the value written. -/
theorem put_reg_get_reg (A : arch) (s : state) (r v : Nat)
    (hr : r ≤ 65) (h31 : r ≠ 31) (h63 : r ≠ 63) :
    (put_reg A s r v).1 = 0 ∧ (get_reg A (put_reg A s r v).2 r).1 = v := by
  have h66 : ¬ r > 65 := by omega
  by_cases h30 : r = 30
  · subst h30
    simp [put_reg, get_reg, get_reg_addr, assign, deref]
  · by_cases h65 : r = 65
    · subst h65
      simp [put_reg, get_reg, get_reg_addr, assign, deref]
    · simp [put_reg, get_reg, get_reg_addr, assign, deref, h30, h65, h31, h63, h66]

/-- Witness for C1 at register 29 of the sample task. -/
theorem put_reg_get_reg_witness :
    29 ≤ 65 ∧ 29 ≠ 31 ∧ 29 ≠ 63 ∧
    (put_reg sample_arch (sample_state 0x1000 (sample_vm 0x1000 0 0)) 29 7).1 = 0 ∧
    (get_reg sample_arch
      (put_reg sample_arch (sample_state 0x1000 (sample_vm 0x1000 0 0)) 29 7).2 29).1 = 7 :=
  ⟨by decide, by decide, by decide,
    put_reg_get_reg sample_arch (sample_state 0x1000 (sample_vm 0x1000 0 0)) 29 7
      (by decide) (by decide) (by decide)⟩

/-- C2: for index 31 and every index above 65, `get_reg` returns 0 in every
state (so also right after any `put_reg`); a `put_reg` through such an index
changes nothing but the variable `zero`; and no `get_reg` result, for any
index, depends on the contents of `zero`, so the written data is never
observable by a later read. -/
theorem zero_reg_never_observable (A : arch) (s : state) (r : Nat)
    (hr : zero_aliased r) :
    (get_reg A s r).1 = 0 ∧
    (∀ r' v, zero_aliased r' → (get_reg A (put_reg A s r' v).2 r).1 = 0) ∧
    (∀ v, (put_reg A s r v).2 = { s with zero := v }) ∧
    (∀ (t : state) (z q : Nat), (get_reg A { t with zero := z } q).1 = (get_reg A t q).1) := by
  have h30 : r ≠ 30 := by unfold zero_aliased at hr; omega
  have h65 : r ≠ 65 := by unfold zero_aliased at hr; omega
  have h63 : r ≠ 63 := by unfold zero_aliased at hr; omega
  have hz : r = 31 ∨ r > 65 := hr
  have hread : ∀ t : state, (get_reg A t r).1 = 0 := by
    intro t
    simp [get_reg, get_reg_addr, deref, h30, h65, h63, hz]
  refine ⟨hread s, fun r' v _ => hread _, ?_, ?_⟩
  · intro v
    simp [put_reg, get_reg_addr, assign, h30, h65, h63, hz]
  · intro t z q
    by_cases q30 : q = 30
    · subst q30; simp [get_reg, get_reg_addr, deref]
    · by_cases q65 : q = 65
      · subst q65; simp [get_reg, get_reg_addr, deref]
      · by_cases qz : q = 31 ∨ q > 65
        · have q63 : q ≠ 63 := by omega
          simp [get_reg, get_reg_addr, deref, q30, q65, q63, qz]
        · by_cases q63 : q = 63
          · subst q63; simp [get_reg, get_reg_addr, deref]
          · simp [get_reg, get_reg_addr, deref, q30, q65, q63, qz]

/-- Witness for C2 at index 31 of the sample task. -/
theorem zero_reg_never_observable_witness :
    zero_aliased 31 ∧
    (get_reg sample_arch (sample_state 0x1000 (sample_vm 0x1000 0 0)) 31).1 = 0 ∧
    (∀ r' v, zero_aliased r' →
      (get_reg sample_arch
        (put_reg sample_arch (sample_state 0x1000 (sample_vm 0x1000 0 0)) r' v).2 31).1 = 0) ∧
    (∀ v, (put_reg sample_arch (sample_state 0x1000 (sample_vm 0x1000 0 0)) 31 v).2 =
      { sample_state 0x1000 (sample_vm 0x1000 0 0) with zero := v }) ∧
    (∀ (t : state) (z q : Nat),
      (get_reg sample_arch { t with zero := z } q).1 = (get_reg sample_arch t q).1) :=
  ⟨Or.inl rfl,
    zero_reg_never_observable sample_arch (sample_state 0x1000 (sample_vm 0x1000 0 0)) 31
      (Or.inl rfl)⟩

/-- C3, as stated, fails: on the sample task index 29 does not resolve to
the saved user stack pointer, and index 30 does. -/
theorem usp_index_counterexample :
    ¬ ((get_reg_addr sample_arch (sample_state 0x1000 (sample_vm 0x1000 0 0)) 29).1
          = reg_addr.usp ∧
       (get_reg_addr sample_arch (sample_state 0x1000 (sample_vm 0x1000 0 0)) 30).1
          ≠ reg_addr.usp) := by
  simp [get_reg_addr]

/-- C3, amended: `get_reg_addr` resolves index 30 to the per-thread saved
user stack pointer and changes nothing; index 29 resolves to the trap-frame
slot of `gp` in the stack page, which is not the saved user stack pointer. -/
theorem usp_index_is_30 (A : arch) (s : state) :
    get_reg_addr A s 30 = (reg_addr.usp, s) ∧
    get_reg_addr A s 29 = (reg_addr.stack_page (PT_REG A .gp), s) ∧
    (get_reg_addr A s 29).1 ≠ reg_addr.usp := by
  simp [get_reg_addr, regoff]

/-! ## Tracee memory: lemmas -/

theorem read_int_eq (m : vm) (a : Nat) :
    read_int m a =
      if (m.rd a && m.rd (a + 1) && m.rd (a + 2) && m.rd (a + 3)) = true
      then .ok (word_at m a) else .error (- EIO) := by
  cases h0 : m.rd a <;> cases h1 : m.rd (a + 1) <;> cases h2 : m.rd (a + 2) <;>
    cases h3 : m.rd (a + 3) <;>
    simp [read_int, access_process_vm_read, vm_span, word_at, h0, h1, h2, h3,
      List.range_succ, Nat.add_assoc]

theorem read_int_ok_iff (m : vm) (a w : Nat) :
    read_int m a = .ok w ↔
      (m.rd a && m.rd (a + 1) && m.rd (a + 2) && m.rd (a + 3)) = true ∧ w = word_at m a := by
  rw [read_int_eq]
  by_cases hc : (m.rd a && m.rd (a + 1) && m.rd (a + 2) && m.rd (a + 3)) = true
  · rw [if_pos hc]
    constructor
    · intro h
      exact ⟨hc, (Except.ok.inj h).symm⟩
    · rintro ⟨_, rfl⟩
      rfl
  · rw [if_neg hc]
    constructor
    · intro h
      cases h
    · rintro ⟨h, _⟩
      exact absurd h hc

theorem write_int_fst (m : vm) (a w : Nat) :
    (write_int m a w).1 =
      if (m.wr a && m.wr (a + 1) && m.wr (a + 2) && m.wr (a + 3)) = true
      then 0 else - EIO := by
  cases h0 : m.wr a <;> cases h1 : m.wr (a + 1) <;> cases h2 : m.wr (a + 2) <;>
    cases h3 : m.wr (a + 3) <;>
    simp [write_int, access_process_vm_write, vm_span, le_bytes, h0, h1, h2, h3,
      Nat.add_assoc]

theorem write_int_ok (m : vm) (a w : Nat) (h : (write_int m a w).1 = 0) :
    (write_int m a w).2 = { m with byte := store4 m.byte a w } := by
  have hs : vm_span m.wr a 4 = 4 := by
    rw [write_int_fst] at h
    split at h
    · rename_i hc
      simp only [Bool.and_eq_true] at hc
      simp [vm_span, hc.1.1.1, hc.1.1.2, hc.1.2, hc.2, Nat.add_assoc]
    · simp [ EIO] at h
  have hl : (le_bytes w 4).length = 4 := rfl
  simp only [write_int, access_process_vm_write, hl, hs]
  congr 1

theorem write_int_rd (m : vm) (a w : Nat) : (write_int m a w).2.rd = m.rd := rfl

theorem write_int_wr (m : vm) (a w : Nat) : (write_int m a w).2.wr = m.wr := rfl

theorem vm_span_le (ok : Nat → Bool) (a len : Nat) : vm_span ok a len ≤ len := by
  induction len generalizing a with
  | zero => simp [vm_span]
  | succ n ih =>
    simp only [vm_span]
    split
    · have := ih (a + 1); omega
    · omega

theorem write_int_frame (m : vm) (a w x : Nat) (hx : x < a ∨ a + 4 ≤ x) :
    (write_int m a w).2.byte x = m.byte x := by
  have hle := vm_span_le m.wr a 4
  have hl : (le_bytes w 4).length = 4 := rfl
  simp only [write_int, access_process_vm_write, hl]
  rw [if_neg]
  intro hc
  omega

theorem store4_at (b : Nat → Fin 256) (a w : Nat) :
    (store4 b a w a).val = w % 256 ∧
    (store4 b a w (a + 1)).val = w / 256 % 256 ∧
    (store4 b a w (a + 2)).val = w / 256 / 256 % 256 ∧
    (store4 b a w (a + 3)).val = w / 256 / 256 / 256 % 256 := by
  simp [store4, le_bytes, Fin.ofNat]

theorem store4_frame (b : Nat → Fin 256) (a w x : Nat) (hx : x < a ∨ a + 4 ≤ x) :
    store4 b a w x = b x := by
  unfold store4
  rw [if_neg]
  omega

theorem word_at_store4 (m : vm) (a w : Nat) :
    word_at { m with byte := store4 m.byte a w } a = w % 2 ^ 32 := by
  obtain ⟨h0, h1, h2, h3⟩ := store4_at m.byte a w
  simp only [word_at, le_word, h0, h1, h2, h3]
  omega

theorem store4_word_at (m : vm) (a : Nat) :
    store4 m.byte a (word_at m a) = m.byte := by
  funext x
  by_cases hx : a ≤ x ∧ x < a + 4
  · obtain ⟨k, rfl⟩ : ∃ k, x = a + k := ⟨x - a, by omega⟩
    have hk : k < 4 := by omega
    obtain ⟨h0, h1, h2, h3⟩ := store4_at m.byte a (word_at m a)
    have b0 := (m.byte a).isLt
    have b1 := (m.byte (a + 1)).isLt
    have b2 := (m.byte (a + 2)).isLt
    have b3 := (m.byte (a + 3)).isLt
    apply Fin.ext
    interval_cases k
    · rw [Nat.add_zero, h0]; simp only [word_at, le_word]; omega
    · rw [h1]; simp only [word_at, le_word]; omega
    · rw [h2]; simp only [word_at, le_word]; omega
    · rw [h3]; simp only [word_at, le_word]; omega
  · exact store4_frame _ _ _ _ (by omega)

/-! ## Single stepping: lemmas -/

theorem get_reg_pc (A : arch) (s : state) :
    get_reg A s REG_PC = (s.stack (PT_REG A .pc), s) := by
  simp [get_reg, get_reg_addr, REG_PC, regoff, deref]

theorem read_int_after_write (m : vm) (a w w0 : Nat) (hr : read_int m a = .ok w0)
    (h : (write_int m a w).1 = 0) :
    read_int (write_int m a w).2 a = .ok (w % 2 ^ 32) := by
  rw [read_int_ok_iff] at hr
  rw [read_int_ok_iff, write_int_ok m a w h]
  exact ⟨hr.1, (word_at_store4 m a w).symm⟩

theorem install_bpts_one (s : state) (w : Nat)
    (hr : read_int s.mm (s.bpt_addr 0) = .ok w)
    (hw : (write_int s.mm (s.bpt_addr 0) BREAKINST).1 = 0) :
    install_bpts 1 0 s =
      (0, { set_bpt_insn s 0 w with mm := (write_int s.mm (s.bpt_addr 0) BREAKINST).2 }) := by
  simp [install_bpts, hr, set_bpt_insn, hw]

/-- The result of `ptrace_set_bpt` when one address `a` is scheduled from the
state `t` and the copies at `a` succeed. -/
theorem set_bpt_single (t : state) (a w : Nat)
    (hr : read_int t.mm a = .ok w)
    (hw : (write_int t.mm a BREAKINST).1 = 0) :
    install_bpts 1 0 (set_bpt_addr t 0 a) =
      (0, { set_bpt_insn (set_bpt_addr t 0 a) 0 w with
              mm := (write_int t.mm a BREAKINST).2 }) := by
  have h := install_bpts_one (set_bpt_addr t 0 a) w
    (by simpa [set_bpt_addr] using hr) (by simpa [set_bpt_addr] using hw)
  simpa [set_bpt_addr] using h

/-- The result of `ptrace_set_bpt` when exactly one address is scheduled. -/
theorem ptrace_set_bpt_single (A : arch) (s t : state) (pc insn a w : Nat)
    (hpc : s.stack (PT_REG A .pc) = pc)
    (hfetch : read_int s.mm pc = .ok insn)
    (hsched : schedule_bpts A s pc insn = (1, set_bpt_addr t 0 a))
    (hr : read_int t.mm a = .ok w)
    (hw : (write_int t.mm a BREAKINST).1 = 0) :
    ptrace_set_bpt A s =
      (0, { set_bpt_insn (set_bpt_addr t 0 a) 0 w with
              mm := (write_int t.mm a BREAKINST).2,
              bpt_nsaved := 1 }) := by
  unfold ptrace_set_bpt
  rw [get_reg_pc]
  simp only [hpc, hfetch, hsched]
  rw [set_bpt_single t a w hr hw]
  simp

/-- The displacement computed by the code is the one the specification
describes. -/
theorem displ_eq (insn : Nat) :
    s32 ((insn <<< 11) % 2 ^ 32) >>> (9 : Nat) = branch_displacement insn := by
  rw [Int.shiftRight_eq_div_pow, Nat.shiftLeft_eq]
  unfold s32 branch_displacement
  norm_num
  split <;> split <;> omega

/-- The two successors of a branch with non-zero displacement do not overlap. -/
theorem bpt_disjoint (pc : Nat) (insn : Nat) (h : branch_displacement insn ≠ 0) :
    (pc + 4) % 2 ^ 64 + 4 ≤ u64 (((pc + 4 : Nat) : Int) + branch_displacement insn) ∨
    u64 (((pc + 4 : Nat) : Int) + branch_displacement insn) + 4 ≤ (pc + 4) % 2 ^ 64 := by
  unfold branch_displacement u64 at *
  norm_num at *
  split at h <;> rename_i hc <;> simp only [hc, if_true, if_false] <;> omega

theorem word_at_write_disjoint (m : vm) (a b v : Nat) (h : a + 4 ≤ b ∨ b + 4 ≤ a) :
    word_at (write_int m a v).2 b = word_at m b := by
  unfold word_at
  rw [write_int_frame m a v b (by omega), write_int_frame m a v (b + 1) (by omega),
    write_int_frame m a v (b + 2) (by omega), write_int_frame m a v (b + 3) (by omega)]

theorem read_int_write_disjoint (m : vm) (a b v : Nat) (h : a + 4 ≤ b ∨ b + 4 ≤ a) :
    read_int (write_int m a v).2 b = read_int m b := by
  rw [read_int_eq, read_int_eq, word_at_write_disjoint m a b v h, write_int_rd]

theorem write_int_fst_after_write (m : vm) (a b v v' : Nat) :
    (write_int (write_int m a v).2 b v').1 = (write_int m b v').1 := by
  rw [write_int_fst, write_int_fst, write_int_wr]

theorem install_bpts_two (s : state) (w0 w1 : Nat)
    (hd : s.bpt_addr 0 + 4 ≤ s.bpt_addr 1 ∨ s.bpt_addr 1 + 4 ≤ s.bpt_addr 0)
    (hr0 : read_int s.mm (s.bpt_addr 0) = .ok w0)
    (hw0 : (write_int s.mm (s.bpt_addr 0) BREAKINST).1 = 0)
    (hr1 : read_int s.mm (s.bpt_addr 1) = .ok w1)
    (hw1 : (write_int s.mm (s.bpt_addr 1) BREAKINST).1 = 0) :
    install_bpts 2 0 s =
      (0, { set_bpt_insn (set_bpt_insn s 0 w0) 1 w1 with
              mm := (write_int (write_int s.mm (s.bpt_addr 0) BREAKINST).2
                      (s.bpt_addr 1) BREAKINST).2 }) := by
  have hr1' := read_int_write_disjoint s.mm _ _ BREAKINST hd
  rw [hr1] at hr1'
  have hw1' := write_int_fst_after_write s.mm (s.bpt_addr 0) (s.bpt_addr 1) BREAKINST BREAKINST
  rw [hw1] at hw1'
  simp [install_bpts, hr0, set_bpt_insn, hw0, hr1', hw1']

/-- The result of `ptrace_set_bpt` when two non-overlapping addresses are
scheduled. -/
theorem ptrace_set_bpt_two (A : arch) (s : state) (pc insn a b w0 w1 : Nat)
    (hpc : s.stack (PT_REG A .pc) = pc)
    (hfetch : read_int s.mm pc = .ok insn)
    (hsched : schedule_bpts A s pc insn = (2, set_bpt_addr (set_bpt_addr s 0 a) 1 b))
    (hd : a + 4 ≤ b ∨ b + 4 ≤ a)
    (hr0 : read_int s.mm a = .ok w0)
    (hw0 : (write_int s.mm a BREAKINST).1 = 0)
    (hr1 : read_int s.mm b = .ok w1)
    (hw1 : (write_int s.mm b BREAKINST).1 = 0) :
    ptrace_set_bpt A s =
      (0, { set_bpt_insn (set_bpt_insn (set_bpt_addr (set_bpt_addr s 0 a) 1 b) 0 w0) 1 w1 with
              mm := (write_int (write_int s.mm a BREAKINST).2 b BREAKINST).2,
              bpt_nsaved := 2 }) := by
  have h := install_bpts_two (set_bpt_addr (set_bpt_addr s 0 a) 1 b) w0 w1
    (by simpa [set_bpt_addr] using hd) (by simpa [set_bpt_addr] using hr0)
    (by simpa [set_bpt_addr] using hw0) (by simpa [set_bpt_addr] using hr1)
    (by simpa [set_bpt_addr] using hw1)
  unfold ptrace_set_bpt
  rw [get_reg_pc]
  simp only [hpc, hfetch, hsched]
  rw [h]
  simp [set_bpt_addr]

theorem get_reg_snd (A : arch) (s : state) (r : Nat) :
    (get_reg A s r).2 = s ∨ (get_reg A s r).2 = { s with zero := 0 } := by
  unfold get_reg get_reg_addr
  split_ifs <;> simp

theorem get_reg_mm (A : arch) (s : state) (r : Nat) : (get_reg A s r).2.mm = s.mm := by
  rcases get_reg_snd A s r with h | h <;> rw [h]

/-- A breakpoint written at `a` never makes the word at a different address
`p` read as `BREAKINST`, even when the two words overlap. -/
theorem word_at_store4_ne (m : vm) (a p : Nat) (hne : p ≠ a)
    (h0 : word_at m p ≠ BREAKINST) :
    word_at { m with byte := store4 m.byte a BREAKINST } p ≠ BREAKINST := by
  by_cases hd : a + 4 ≤ p ∨ p + 4 ≤ a
  · have : word_at { m with byte := store4 m.byte a BREAKINST } p = word_at m p := by
      unfold word_at
      simp only
      rw [store4_frame _ _ _ p (by omega), store4_frame _ _ _ (p + 1) (by omega),
        store4_frame _ _ _ (p + 2) (by omega), store4_frame _ _ _ (p + 3) (by omega)]
    rw [this]
    exact h0
  · obtain ⟨h0', h1', h2', h3'⟩ := store4_at m.byte a BREAKINST
    have e0 : BREAKINST % 256 = 128 := by decide
    have e1 : BREAKINST / 256 % 256 = 0 := by decide
    have e2 : BREAKINST / 256 / 256 % 256 = 0 := by decide
    have e3 : BREAKINST / 256 / 256 / 256 % 256 = 0 := by decide
    rw [e0] at h0'
    rw [e1] at h1'
    rw [e2] at h2'
    rw [e3] at h3'
    have hB : BREAKINST = 128 := by decide
    have c0 := (store4 m.byte a BREAKINST p).isLt
    have c1 := (store4 m.byte a BREAKINST (p + 1)).isLt
    have c2 := (store4 m.byte a BREAKINST (p + 2)).isLt
    have c3 := (store4 m.byte a BREAKINST (p + 3)).isLt
    simp only [word_at, le_word]
    have hcases : a = p + 1 ∨ a = p + 2 ∨ a = p + 3 ∨ p = a + 1 ∨ p = a + 2 ∨ p = a + 3 := by
      omega
    rcases hcases with h | h | h | h | h | h <;> subst h <;>
      simp only [Nat.add_assoc, Nat.reduceAdd] at * <;> omega

theorem read_int_error (m : vm) (a : Nat) (e : Int) (h : read_int m a = .error e) :
    e = - EIO := by
  rw [read_int_eq] at h
  split at h
  · cases h
  · exact (Except.error.inj h).symm

theorem write_int_fst_cases (m : vm) (a w : Nat) :
    (write_int m a w).1 = 0 ∨ (write_int m a w).1 = - EIO := by
  rw [write_int_fst]
  split
  · exact Or.inl rfl
  · exact Or.inr rfl

theorem neg_eio_lt : - EIO < 0 := by decide

theorem install_bpts_one_inv (s : state) (h : ¬ (install_bpts 1 0 s).1 < 0) :
    ∃ w, read_int s.mm (s.bpt_addr 0) = .ok w ∧
      (write_int s.mm (s.bpt_addr 0) BREAKINST).1 = 0 := by
  cases hr : read_int s.mm (s.bpt_addr 0) with
  | error e =>
    have he := read_int_error _ _ _ hr
    simp only [install_bpts, hr, he] at h
    exact absurd neg_eio_lt h
  | ok w =>
    refine ⟨w, rfl, ?_⟩
    rcases write_int_fst_cases s.mm (s.bpt_addr 0) BREAKINST with hw | hw
    · exact hw
    · have hw' : (write_int (set_bpt_insn s 0 w).mm ((set_bpt_insn s 0 w).bpt_addr 0)
          BREAKINST).1 = - EIO := hw
      simp only [install_bpts, hr, hw', neg_eio_lt, if_true] at h
      exact absurd trivial h

theorem install_bpts_two_inv (s : state)
    (hd : s.bpt_addr 0 + 4 ≤ s.bpt_addr 1 ∨ s.bpt_addr 1 + 4 ≤ s.bpt_addr 0)
    (h : ¬ (install_bpts 2 0 s).1 < 0) :
    ∃ w0 w1, read_int s.mm (s.bpt_addr 0) = .ok w0 ∧
      (write_int s.mm (s.bpt_addr 0) BREAKINST).1 = 0 ∧
      read_int s.mm (s.bpt_addr 1) = .ok w1 ∧
      (write_int s.mm (s.bpt_addr 1) BREAKINST).1 = 0 := by
  cases hr : read_int s.mm (s.bpt_addr 0) with
  | error e =>
    have he := read_int_error _ _ _ hr
    simp only [install_bpts, hr, he] at h
    exact absurd neg_eio_lt h
  | ok w0 =>
    have hw0 : (write_int s.mm (s.bpt_addr 0) BREAKINST).1 = 0 := by
      rcases write_int_fst_cases s.mm (s.bpt_addr 0) BREAKINST with hw | hw
      · exact hw
      · have hw' : (write_int (set_bpt_insn s 0 w0).mm ((set_bpt_insn s 0 w0).bpt_addr 0)
            BREAKINST).1 = - EIO := hw
        simp only [install_bpts, hr, hw', neg_eio_lt, if_true] at h
        exact absurd trivial h
    have hdis := read_int_write_disjoint s.mm _ _ BREAKINST hd
    have hwf := write_int_fst_after_write s.mm (s.bpt_addr 0) (s.bpt_addr 1)
      BREAKINST BREAKINST
    cases hr1 : read_int s.mm (s.bpt_addr 1) with
    | error e =>
      have he := read_int_error _ _ _ hr1
      rw [hr1] at hdis
      simp [install_bpts, hr, set_bpt_insn, hw0, hdis, he] at h
      exact absurd neg_eio_lt (by simpa using h)
    | ok w1 =>
      refine ⟨w0, w1, rfl, hw0, rfl, ?_⟩
      rcases write_int_fst_cases s.mm (s.bpt_addr 1) BREAKINST with hw | hw
      · exact hw
      · rw [hr1] at hdis
        rw [hw] at hwf
        simp [install_bpts, hr, set_bpt_insn, hw0, hdis, hwf] at h
        exact absurd neg_eio_lt (by simpa using h)

theorem write_int_fst_wr (m m' : vm) (a w w' : Nat) (h : m.wr = m'.wr) :
    (write_int m a w).1 = (write_int m' a w').1 := by
  rw [write_int_fst, write_int_fst, h]

theorem store4_in (b1 b2 : Nat → Fin 256) (a w x : Nat) (hx : a ≤ x ∧ x < a + 4) :
    store4 b1 a w x = store4 b2 a w x := by
  unfold store4
  rw [if_pos hx, if_pos hx]

/-- Writing back the word that was at `a` undoes a complete store at `a`. -/
theorem write_int_restore (m : vm) (a v : Nat) (hw : (write_int m a v).1 = 0) :
    (write_int (write_int m a v).2 a (word_at m a)).2 = m := by
  have h1 : (write_int (write_int m a v).2 a (word_at m a)).1 = 0 := by
    rw [write_int_fst_wr (write_int m a v).2 m a _ v (write_int_wr m a v)]
    exact hw
  rw [write_int_ok _ _ _ h1, write_int_ok _ _ _ hw]
  have : store4 (store4 m.byte a v) a (word_at m a) = m.byte := by
    funext x
    by_cases hx : a ≤ x ∧ x < a + 4
    · rw [store4_in _ m.byte a _ x hx, store4_word_at]
    · rw [store4_frame _ _ _ _ (by omega), store4_frame _ _ _ _ (by omega)]
  simp only [this]

/-- Writing back the words that were at two addresses undoes two complete
stores there. -/
theorem write_int_restore_two (m : vm) (a b v v' : Nat)
    (hwa : (write_int m a v).1 = 0) (hwb : (write_int m b v').1 = 0) :
    (write_int (write_int (write_int (write_int m a v).2 b v').2 a (word_at m a)).2
      b (word_at m b)).2 = m := by
  have h2 : (write_int (write_int m a v).2 b v').1 = 0 := by
    exact (write_int_fst_wr _ m b _ v' (by rfl)).trans hwb
  have h3 : (write_int (write_int (write_int m a v).2 b v').2 a (word_at m a)).1 = 0 := by
    exact (write_int_fst_wr _ m a _ v (by rfl)).trans hwa
  have h4 : (write_int (write_int (write_int (write_int m a v).2 b v').2 a (word_at m a)).2
      b (word_at m b)).1 = 0 := by
    exact (write_int_fst_wr _ m b _ v' (by rfl)).trans hwb
  rw [write_int_ok _ _ _ h4, write_int_ok _ _ _ h3, write_int_ok _ _ _ h2,
    write_int_ok _ _ _ hwa]
  have : store4 (store4 (store4 (store4 m.byte a v) b v') a (word_at m a)) b (word_at m b)
      = m.byte := by
    funext x
    by_cases hb : b ≤ x ∧ x < b + 4
    · rw [store4_in _ m.byte b _ x hb, store4_word_at]
    · rw [store4_frame _ b _ x (by omega)]
      by_cases ha : a ≤ x ∧ x < a + 4
      · rw [store4_in _ m.byte a _ x ha, store4_word_at]
      · rw [store4_frame _ a _ x (by omega), store4_frame _ b _ x (by omega),
          store4_frame _ a _ x (by omega)]
  simp only [this]

theorem schedule_bpts_cases (A : arch) (s : state) (pc insn : Nat) :
    (∃ t a, schedule_bpts A s pc insn = (1, set_bpt_addr t 0 a) ∧ t.mm = s.mm) ∨
    (∃ a b, schedule_bpts A s pc insn = (2, set_bpt_addr (set_bpt_addr s 0 a) 1 b) ∧
      (a + 4 ≤ b ∨ b + 4 ≤ a)) := by
  unfold schedule_bpts
  simp only [displ_eq]
  split_ifs with h1 h2 h3
  · exact Or.inr ⟨_, _, rfl, bpt_disjoint pc insn h2⟩
  · exact Or.inl ⟨s, _, rfl, rfl⟩
  · exact Or.inl ⟨_, _, rfl, get_reg_mm A s _⟩
  · exact Or.inl ⟨s, _, rfl, rfl⟩

theorem restore_bpts_nsaved (n i : Nat) (s : state) :
    (restore_bpts n i s).bpt_nsaved = s.bpt_nsaved := by
  induction n generalizing i s with
  | zero => rfl
  | succ n ih =>
    simp only [restore_bpts]
    rw [ih]

theorem ptrace_cancel_bpt_nsaved (s : state) : (ptrace_cancel_bpt s).2.bpt_nsaved = 0 := by
  simp only [ptrace_cancel_bpt]
  rw [restore_bpts_nsaved]

theorem ptrace_cancel_bpt_idle (s : state) (h : s.bpt_nsaved = 0) :
    ptrace_cancel_bpt s = (0, s) := by
  cases s
  simp only at h
  subst h
  simp [ptrace_cancel_bpt, restore_bpts]

/-! ## Single stepping: theorems -/

/-- C4: when the word at PC is a sequential instruction (top six bits below
0x30 and not 0x1a) and the copies at PC and PC+4 succeed, `ptrace_set_bpt`
returns 0, sets `bpt_nsaved` to 1, records the pair (PC+4, word previously
at PC+4), leaves `BREAKINST` at PC+4 and changes no byte of tracee memory
outside the four bytes at PC+4. -/
theorem set_bpt_sequential (A : arch) (s : state) (pc insn w : Nat)
    (hpc : (get_reg A s REG_PC).1 = pc)
    (hfetch : read_int s.mm pc = .ok insn)
    (hop : insn >>> 26 < 0x30 ∧ insn >>> 26 ≠ 0x1a)
    (hread : read_int s.mm ((pc + 4) % 2 ^ 64) = .ok w)
    (hwrite : (write_int s.mm ((pc + 4) % 2 ^ 64) BREAKINST).1 = 0) :
    (ptrace_set_bpt A s).1 = 0 ∧
    (ptrace_set_bpt A s).2.bpt_nsaved = 1 ∧
    (ptrace_set_bpt A s).2.bpt_addr 0 = (pc + 4) % 2 ^ 64 ∧
    (ptrace_set_bpt A s).2.bpt_insn 0 = w ∧
    w = word_at s.mm ((pc + 4) % 2 ^ 64) ∧
    read_int (ptrace_set_bpt A s).2.mm ((pc + 4) % 2 ^ 64) = .ok BREAKINST ∧
    (∀ x, x < (pc + 4) % 2 ^ 64 ∨ (pc + 4) % 2 ^ 64 + 4 ≤ x →
      (ptrace_set_bpt A s).2.mm.byte x = s.mm.byte x) := by
  rw [get_reg_pc] at hpc
  simp only at hpc
  have hsched : schedule_bpts A s pc insn = (1, set_bpt_addr s 0 ((pc + 4) % 2 ^ 64)) := by
    have h1 : ¬ insn >>> 26 ≥ 0x30 := by omega
    simp only [schedule_bpts, h1, hop.2, if_false]
  have hres : ptrace_set_bpt A s =
      (0, { set_bpt_insn (set_bpt_addr s 0 ((pc + 4) % 2 ^ 64)) 0 w with
              mm := (write_int s.mm ((pc + 4) % 2 ^ 64) BREAKINST).2,
              bpt_nsaved := 1 }) := by
    exact ptrace_set_bpt_single A s s pc insn _ w hpc hfetch hsched hread hwrite
  rw [hres]
  refine ⟨rfl, rfl, ?_, ?_, ?_, ?_, ?_⟩
  · simp [set_bpt_insn, set_bpt_addr]
  · simp [set_bpt_insn, set_bpt_addr]
  · exact ((read_int_ok_iff _ _ _).1 hread).2
  · exact read_int_after_write s.mm _ BREAKINST w hread hwrite
  · intro x hx
    exact write_int_frame s.mm _ BREAKINST x hx

/-- C5: when the word at PC is a branch (top six bits at least 0x30) and the
copies succeed, let `d` be bits [20:0] of the instruction, sign-extended
from 21 bits and multiplied by 4. `ptrace_set_bpt` returns 0 and installs a
breakpoint at PC+4; if `d = 0` it is the only one (`bpt_nsaved = 1`, no byte
outside the four bytes at PC+4 changes); if `d ≠ 0` there are exactly two
(`bpt_nsaved = 2`), the second at PC+4+d in 64-bit wrapping arithmetic, a
different address, and no byte outside the two words changes. -/
theorem set_bpt_branch (A : arch) (s : state) (pc insn w0 w1 : Nat)
    (hpc : (get_reg A s REG_PC).1 = pc)
    (hfetch : read_int s.mm pc = .ok insn)
    (hop : insn >>> 26 ≥ 0x30)
    (hr0 : read_int s.mm ((pc + 4) % 2 ^ 64) = .ok w0)
    (hw0 : (write_int s.mm ((pc + 4) % 2 ^ 64) BREAKINST).1 = 0)
    (hr1 : branch_displacement insn ≠ 0 →
      read_int s.mm (u64 (((pc + 4 : Nat) : Int) + branch_displacement insn)) = .ok w1)
    (hw1 : branch_displacement insn ≠ 0 →
      (write_int s.mm (u64 (((pc + 4 : Nat) : Int) + branch_displacement insn)) BREAKINST).1 = 0) :
    (ptrace_set_bpt A s).1 = 0 ∧
    (ptrace_set_bpt A s).2.bpt_addr 0 = (pc + 4) % 2 ^ 64 ∧
    read_int (ptrace_set_bpt A s).2.mm ((pc + 4) % 2 ^ 64) = .ok BREAKINST ∧
    (branch_displacement insn = 0 →
      (ptrace_set_bpt A s).2.bpt_nsaved = 1 ∧
      ∀ x, x < (pc + 4) % 2 ^ 64 ∨ (pc + 4) % 2 ^ 64 + 4 ≤ x →
        (ptrace_set_bpt A s).2.mm.byte x = s.mm.byte x) ∧
    (branch_displacement insn ≠ 0 →
      (ptrace_set_bpt A s).2.bpt_nsaved = 2 ∧
      (ptrace_set_bpt A s).2.bpt_addr 1
        = u64 (((pc + 4 : Nat) : Int) + branch_displacement insn) ∧
      u64 (((pc + 4 : Nat) : Int) + branch_displacement insn) ≠ (pc + 4) % 2 ^ 64 ∧
      read_int (ptrace_set_bpt A s).2.mm
        (u64 (((pc + 4 : Nat) : Int) + branch_displacement insn)) = .ok BREAKINST ∧
      ∀ x, (x < (pc + 4) % 2 ^ 64 ∨ (pc + 4) % 2 ^ 64 + 4 ≤ x) →
        (x < u64 (((pc + 4 : Nat) : Int) + branch_displacement insn) ∨
          u64 (((pc + 4 : Nat) : Int) + branch_displacement insn) + 4 ≤ x) →
        (ptrace_set_bpt A s).2.mm.byte x = s.mm.byte x) := by
  rw [get_reg_pc] at hpc
  simp only at hpc
  by_cases hd : branch_displacement insn = 0
  · have hsched : schedule_bpts A s pc insn = (1, set_bpt_addr s 0 ((pc + 4) % 2 ^ 64)) := by
      simp only [schedule_bpts, hop, if_true, displ_eq, hd, ne_eq, not_true_eq_false, if_false]
    rw [ptrace_set_bpt_single A s s pc insn _ w0 hpc hfetch hsched hr0 hw0]
    refine ⟨rfl, ?_, ?_, ?_, ?_⟩
    · simp [set_bpt_insn, set_bpt_addr]
    · exact read_int_after_write s.mm _ BREAKINST w0 hr0 hw0
    · intro _
      exact ⟨rfl, fun x hx => write_int_frame s.mm _ BREAKINST x hx⟩
    · intro h
      exact absurd hd h
  · have hsched : schedule_bpts A s pc insn =
        (2, set_bpt_addr (set_bpt_addr s 0 ((pc + 4) % 2 ^ 64)) 1
              (u64 (((pc + 4 : Nat) : Int) + branch_displacement insn))) := by
      simp only [schedule_bpts, hop, if_true, displ_eq, hd, ne_eq, not_false_eq_true]
    have hdis := bpt_disjoint pc insn hd
    rw [ptrace_set_bpt_two A s pc insn _ _ w0 w1 hpc hfetch hsched hdis hr0 hw0 (hr1 hd) (hw1 hd)]
    refine ⟨rfl, ?_, ?_, ?_, ?_⟩
    · simp [set_bpt_insn, set_bpt_addr]
    · show read_int (write_int (write_int s.mm _ BREAKINST).2 _ BREAKINST).2 _ = _
      rw [read_int_write_disjoint _ _ _ _ (by omega)]
      exact read_int_after_write s.mm _ BREAKINST w0 hr0 hw0
    · intro h
      exact absurd h hd
    · intro _
      refine ⟨rfl, ?_, ?_, ?_, ?_⟩
      · simp [set_bpt_insn, set_bpt_addr]
      · omega
      · show read_int (write_int (write_int s.mm _ BREAKINST).2 _ BREAKINST).2 _ = _
        have hr1' := read_int_write_disjoint s.mm _ _ BREAKINST hdis
        rw [hr1 hd] at hr1'
        have hw1' := write_int_fst_after_write s.mm ((pc + 4) % 2 ^ 64)
          (u64 (((pc + 4 : Nat) : Int) + branch_displacement insn)) BREAKINST BREAKINST
        rw [hw1 hd] at hw1'
        exact read_int_after_write _ _ BREAKINST w1 hr1' hw1'
      · intro x hx hx'
        show (write_int (write_int s.mm _ BREAKINST).2 _ BREAKINST).2.byte x = _
        rw [write_int_frame _ _ _ x hx', write_int_frame _ _ _ x hx]

/-- C6: when the word at PC is an indirect jump (top six bits equal to 0x1a)
and the copies succeed, `ptrace_set_bpt` returns 0 with `bpt_nsaved = 1`;
the one breakpoint address is what `get_reg` returns in the state before the
call for the register `(insn >> 16) & 0x1f`, an index from 0 to 31;
`BREAKINST` is left there and no byte outside those four bytes changes. PC+4
is not patched unless it is that address: if it differs, the word at PC+4
reads as `BREAKINST` afterwards only if it did before. -/
theorem set_bpt_jump (A : arch) (s : state) (pc insn rb tgt w : Nat)
    (hpc : (get_reg A s REG_PC).1 = pc)
    (hfetch : read_int s.mm pc = .ok insn)
    (hop : insn >>> 26 = 0x1a)
    (hrb : (insn >>> 16) &&& 0x1f = rb)
    (htgt : (get_reg A s rb).1 = tgt)
    (hr : read_int s.mm tgt = .ok w)
    (hw : (write_int s.mm tgt BREAKINST).1 = 0) :
    rb < 32 ∧
    (ptrace_set_bpt A s).1 = 0 ∧
    (ptrace_set_bpt A s).2.bpt_nsaved = 1 ∧
    (ptrace_set_bpt A s).2.bpt_addr 0 = tgt ∧
    (ptrace_set_bpt A s).2.bpt_insn 0 = w ∧
    read_int (ptrace_set_bpt A s).2.mm tgt = .ok BREAKINST ∧
    (∀ x, x < tgt ∨ tgt + 4 ≤ x → (ptrace_set_bpt A s).2.mm.byte x = s.mm.byte x) ∧
    ((pc + 4) % 2 ^ 64 ≠ tgt → word_at s.mm ((pc + 4) % 2 ^ 64) ≠ BREAKINST →
      word_at (ptrace_set_bpt A s).2.mm ((pc + 4) % 2 ^ 64) ≠ BREAKINST) := by
  rw [get_reg_pc] at hpc
  simp only at hpc
  have hlt : rb < 32 := by
    rw [← hrb]
    exact Nat.lt_succ_of_le Nat.and_le_right
  have hsched : schedule_bpts A s pc insn = (1, set_bpt_addr (get_reg A s rb).2 0 tgt) := by
    have h1 : ¬ insn >>> 26 ≥ 0x30 := by omega
    unfold schedule_bpts
    simp only [hop, if_true, hrb, htgt]
    rw [if_neg (by decide)]
  have hmm := get_reg_mm A s rb
  rw [ptrace_set_bpt_single A s (get_reg A s rb).2 pc insn tgt w hpc hfetch hsched
    (by rw [hmm]; exact hr) (by rw [hmm]; exact hw)]
  rw [hmm]
  refine ⟨hlt, rfl, rfl, ?_, ?_, ?_, ?_, ?_⟩
  · simp [set_bpt_insn, set_bpt_addr]
  · simp [set_bpt_insn, set_bpt_addr]
  · exact read_int_after_write s.mm _ BREAKINST w hr hw
  · intro x hx
    exact write_int_frame s.mm _ BREAKINST x hx
  · intro hne h0
    rw [write_int_ok s.mm tgt BREAKINST hw]
    exact word_at_store4_ne s.mm tgt _ hne h0

/-- C7: for every state and every instruction class, if `ptrace_set_bpt`
returns 0 then a following `ptrace_cancel_bpt` returns 1 (true), leaves
`bpt_nsaved` at 0 and leaves the tracee memory exactly as it was before
`ptrace_set_bpt`. (The writes of the cancel go to the addresses the arm has
just written, so they succeed.) -/
theorem set_bpt_cancel_bpt_restores (A : arch) (s : state)
    (harm : (ptrace_set_bpt A s).1 = 0) :
    (ptrace_cancel_bpt (ptrace_set_bpt A s).2).1 = 1 ∧
    (ptrace_cancel_bpt (ptrace_set_bpt A s).2).2.bpt_nsaved = 0 ∧
    (ptrace_cancel_bpt (ptrace_set_bpt A s).2).2.mm = s.mm := by
  cases hfetch : read_int s.mm (s.stack (PT_REG A .pc)) with
  | error e =>
    have he := read_int_error _ _ _ hfetch
    simp [ptrace_set_bpt, get_reg_pc, hfetch, he, EIO] at harm
  | ok insn =>
    have hq : ¬ (install_bpts (schedule_bpts A s (s.stack (PT_REG A .pc)) insn).1 0
        (schedule_bpts A s (s.stack (PT_REG A .pc)) insn).2).1 < 0 := by
      intro hlt
      simp only [ptrace_set_bpt, get_reg_pc, hfetch, hlt, if_true] at harm
      omega
    rcases schedule_bpts_cases A s (s.stack (PT_REG A .pc)) insn with
      ⟨t, a, hsched, hmm⟩ | ⟨a, b, hsched, hd⟩
    · rw [hsched] at hq
      obtain ⟨w, hr, hw⟩ := install_bpts_one_inv _ hq
      have hr' : read_int t.mm a = .ok w := by simpa [set_bpt_addr] using hr
      have hw' : (write_int t.mm a BREAKINST).1 = 0 := by simpa [set_bpt_addr] using hw
      rw [ptrace_set_bpt_single A s t _ insn a w rfl hfetch hsched hr' hw']
      have hword := ((read_int_ok_iff _ _ _).1 hr').2
      have hrest := write_int_restore t.mm a BREAKINST hw'
      rw [← hword, hmm] at hrest
      refine ⟨by simp [ptrace_cancel_bpt], by simp [ptrace_cancel_bpt, restore_bpts], ?_⟩
      simpa [ptrace_cancel_bpt, restore_bpts, set_bpt_insn, set_bpt_addr, hmm] using hrest
    · rw [hsched] at hq
      obtain ⟨w0, w1, hr0, hw0, hr1, hw1⟩ := install_bpts_two_inv _
        (by simpa [set_bpt_addr] using hd) hq
      have hr0' : read_int s.mm a = .ok w0 := by simpa [set_bpt_addr] using hr0
      have hw0' : (write_int s.mm a BREAKINST).1 = 0 := by simpa [set_bpt_addr] using hw0
      have hr1' : read_int s.mm b = .ok w1 := by simpa [set_bpt_addr] using hr1
      have hw1' : (write_int s.mm b BREAKINST).1 = 0 := by simpa [set_bpt_addr] using hw1
      rw [ptrace_set_bpt_two A s _ insn a b w0 w1 rfl hfetch hsched hd hr0' hw0' hr1' hw1']
      have hword0 := ((read_int_ok_iff _ _ _).1 hr0').2
      have hword1 := ((read_int_ok_iff _ _ _).1 hr1').2
      have hrest := write_int_restore_two s.mm a b BREAKINST BREAKINST hw0' hw1'
      rw [← hword0, ← hword1] at hrest
      refine ⟨by simp [ptrace_cancel_bpt], by simp [ptrace_cancel_bpt, restore_bpts], ?_⟩
      simpa [ptrace_cancel_bpt, restore_bpts, set_bpt_insn, set_bpt_addr] using hrest

/-- Witness for C4: the task stopped at PC = 0x1000 on a sequential
instruction gets the pending set {(0x1004, 0x12345678)}. -/
theorem set_bpt_sequential_witness :
    (get_reg sample_arch seq_task REG_PC).1 = 0x1000 ∧
    read_int seq_task.mm 0x1000 = .ok 0x47ff041f ∧
    (0x47ff041f >>> 26 < 0x30 ∧ 0x47ff041f >>> 26 ≠ 0x1a) ∧
    read_int seq_task.mm 0x1004 = .ok 0x12345678 ∧
    (write_int seq_task.mm 0x1004 BREAKINST).1 = 0 ∧
    (ptrace_set_bpt sample_arch seq_task).1 = 0 ∧
    (ptrace_set_bpt sample_arch seq_task).2.bpt_nsaved = 1 ∧
    (ptrace_set_bpt sample_arch seq_task).2.bpt_addr 0 = 0x1004 ∧
    (ptrace_set_bpt sample_arch seq_task).2.bpt_insn 0 = 0x12345678 ∧
    0x12345678 = word_at seq_task.mm 0x1004 ∧
    read_int (ptrace_set_bpt sample_arch seq_task).2.mm 0x1004 = .ok BREAKINST ∧
    (∀ x, x < 0x1004 ∨ 0x1004 + 4 ≤ x →
      (ptrace_set_bpt sample_arch seq_task).2.mm.byte x = seq_task.mm.byte x) :=
  ⟨rfl, rfl, by decide, rfl, rfl,
    set_bpt_sequential sample_arch seq_task 0x1000 0x47ff041f 0x12345678
      rfl rfl (by decide) rfl rfl⟩

/-- Witness for C5: the task stopped at 0x1000 on a branch with byte
displacement -4 gets two breakpoints, at 0x1004 and at 0x1000. -/
theorem set_bpt_branch_witness :
    (get_reg sample_arch branch_task REG_PC).1 = 0x1000 ∧
    read_int branch_task.mm 0x1000 = .ok 0xc3ffffff ∧
    0xc3ffffff >>> 26 ≥ 0x30 ∧
    branch_displacement 0xc3ffffff = -4 ∧
    read_int branch_task.mm 0x1004 = .ok 0x12345678 ∧
    (write_int branch_task.mm 0x1004 BREAKINST).1 = 0 ∧
    read_int branch_task.mm 0x1000 = .ok 0xc3ffffff ∧
    (write_int branch_task.mm 0x1000 BREAKINST).1 = 0 ∧
    (ptrace_set_bpt sample_arch branch_task).1 = 0 ∧
    (ptrace_set_bpt sample_arch branch_task).2.bpt_addr 0 = 0x1004 ∧
    read_int (ptrace_set_bpt sample_arch branch_task).2.mm 0x1004 = .ok BREAKINST ∧
    (ptrace_set_bpt sample_arch branch_task).2.bpt_nsaved = 2 ∧
    (ptrace_set_bpt sample_arch branch_task).2.bpt_addr 1 = 0x1000 ∧
    read_int (ptrace_set_bpt sample_arch branch_task).2.mm 0x1000 = .ok BREAKINST :=
  have h := set_bpt_branch sample_arch branch_task 0x1000 0xc3ffffff 0x12345678 0xc3ffffff
    rfl rfl (by decide) rfl rfl (fun _ => rfl) (fun _ => rfl)
  have h2 := h.2.2.2.2 (by decide)
  ⟨rfl, rfl, by decide, by decide, rfl, rfl, rfl, rfl, h.1, h.2.1, h.2.2.1,
    h2.1, h2.2.1, h2.2.2.2.1⟩

/-- Witness for C6: the task stopped at 0x1000 on `jmp $31,($27)` with
register 27 holding 0x2000 gets its one breakpoint at 0x2000. -/
theorem set_bpt_jump_witness :
    (get_reg sample_arch jump_task REG_PC).1 = 0x1000 ∧
    read_int jump_task.mm 0x1000 = .ok 0x6bfb0000 ∧
    0x6bfb0000 >>> 26 = 0x1a ∧
    (0x6bfb0000 >>> 16) &&& 0x1f = 27 ∧
    (get_reg sample_arch jump_task 27).1 = 0x2000 ∧
    read_int jump_task.mm 0x2000 = .ok 0 ∧
    (write_int jump_task.mm 0x2000 BREAKINST).1 = 0 ∧
    (ptrace_set_bpt sample_arch jump_task).1 = 0 ∧
    (ptrace_set_bpt sample_arch jump_task).2.bpt_nsaved = 1 ∧
    (ptrace_set_bpt sample_arch jump_task).2.bpt_addr 0 = 0x2000 ∧
    read_int (ptrace_set_bpt sample_arch jump_task).2.mm 0x2000 = .ok BREAKINST ∧
    word_at (ptrace_set_bpt sample_arch jump_task).2.mm 0x1004 ≠ BREAKINST :=
  have h := set_bpt_jump sample_arch jump_task 0x1000 0x6bfb0000 27 0x2000 0
    rfl rfl (by decide) (by decide) rfl rfl rfl
  ⟨rfl, rfl, by decide, by decide, rfl, rfl, rfl, h.2.1, h.2.2.1, h.2.2.2.1,
    h.2.2.2.2.2.1, h.2.2.2.2.2.2.2 (by decide) (by decide)⟩

/-- Witness for C7: arming the branch task (two breakpoints) and cancelling
restores its memory. -/
theorem set_bpt_cancel_bpt_restores_witness :
    (ptrace_set_bpt sample_arch branch_task).1 = 0 ∧
    (ptrace_cancel_bpt (ptrace_set_bpt sample_arch branch_task).2).1 = 1 ∧
    (ptrace_cancel_bpt (ptrace_set_bpt sample_arch branch_task).2).2.bpt_nsaved = 0 ∧
    (ptrace_cancel_bpt (ptrace_set_bpt sample_arch branch_task).2).2.mm = branch_task.mm :=
  ⟨by decide, set_bpt_cancel_bpt_restores sample_arch branch_task (by decide)⟩

/-- C8 (the code diverges): on the task stopped at 0x1ff8 on a branch whose
target 0x2000 is not mapped, with no breakpoint pending, `ptrace_set_bpt`
writes `BREAKINST` over the word 0x12345678 at 0x1ffc, fails with `-EIO` at
the target and leaves `bpt_nsaved` at 0; the following `ptrace_cancel_bpt`
returns 0 and writes nothing back, so the trap stays at 0x1ffc. -/
theorem set_bpt_failure_leaks_trap :
    word_at fault_task.mm 0x1ffc = 0x12345678 ∧
    fault_task.bpt_nsaved = 0 ∧
    (ptrace_set_bpt sample_arch fault_task).1 = - EIO ∧
    (ptrace_set_bpt sample_arch fault_task).2.bpt_addr 0 = 0x1ffc ∧
    (ptrace_set_bpt sample_arch fault_task).2.bpt_insn 0 = 0x12345678 ∧
    (ptrace_set_bpt sample_arch fault_task).2.bpt_nsaved = 0 ∧
    word_at (ptrace_set_bpt sample_arch fault_task).2.mm 0x1ffc = BREAKINST ∧
    (ptrace_cancel_bpt (ptrace_set_bpt sample_arch fault_task).2).1 = 0 ∧
    word_at (ptrace_cancel_bpt (ptrace_set_bpt sample_arch fault_task).2).2.mm 0x1ffc
      = BREAKINST := by
  refine ⟨?_, ?_, ?_, ?_, ?_, ?_, ?_, ?_, ?_⟩ <;> decide

/-- C9: if the instruction fetch at PC fails (`read_int` returns an error
because fewer than 4 bytes were copied), `ptrace_set_bpt` returns `-EIO` and
the state is exactly the state before the call: tracee memory, `bpt_addr`,
`bpt_insn` and `bpt_nsaved` are untouched. -/
theorem set_bpt_fetch_fails (A : arch) (s : state) (e : Int)
    (h : read_int s.mm (get_reg A s REG_PC).1 = .error e) :
    ptrace_set_bpt A s = (- EIO, s) := by
  have he := read_int_error _ _ _ h
  rw [get_reg_pc] at h
  simp only at h
  simp only [ptrace_set_bpt, get_reg_pc, h, he]

/-- Witness for C9: a fetch at 0x1ffe copies only the 2 mapped bytes. -/
theorem set_bpt_fetch_fails_witness :
    (access_process_vm_read short_fetch_task.mm 0x1ffe 4).1 = 2 ∧
    read_int short_fetch_task.mm (get_reg sample_arch short_fetch_task REG_PC).1
      = .error (- EIO) ∧
    ptrace_set_bpt sample_arch short_fetch_task = (- EIO, short_fetch_task) :=
  ⟨rfl, rfl, set_bpt_fetch_fails sample_arch short_fetch_task (- EIO) rfl⟩

/-- C10: with `bpt_nsaved = 0`, `ptrace_cancel_bpt` returns 0 (false) and
leaves the whole state, tracee memory included, as it was. From every state
`ptrace_cancel_bpt` leaves `bpt_nsaved` at 0, so a second consecutive call
returns 0 and changes nothing. -/
theorem cancel_bpt_idle_noop (s : state) (h : s.bpt_nsaved = 0) :
    ptrace_cancel_bpt s = (0, s) ∧
    (∀ t : state, (ptrace_cancel_bpt t).2.bpt_nsaved = 0 ∧
      ptrace_cancel_bpt (ptrace_cancel_bpt t).2 = (0, (ptrace_cancel_bpt t).2)) :=
  ⟨ptrace_cancel_bpt_idle s h, fun t =>
    ⟨ptrace_cancel_bpt_nsaved t, ptrace_cancel_bpt_idle _ (ptrace_cancel_bpt_nsaved t)⟩⟩

/-- Witness for C10 on the sequential task, which has no breakpoint pending. -/
theorem cancel_bpt_idle_noop_witness :
    seq_task.bpt_nsaved = 0 ∧
    ptrace_cancel_bpt seq_task = (0, seq_task) ∧
    (∀ t : state, (ptrace_cancel_bpt t).2.bpt_nsaved = 0 ∧
      ptrace_cancel_bpt (ptrace_cancel_bpt t).2 = (0, (ptrace_cancel_bpt t).2)) :=
  ⟨rfl, cancel_bpt_idle_noop seq_task rfl⟩

/-! ## Cancel, enable and the pending count: theorems -/

theorem restore_bpts_zero (i : Nat) (s : state) : restore_bpts 0 i s = s := rfl

theorem ptrace_cancel_bpt_fst (s : state) :
    (ptrace_cancel_bpt s).1 = if s.bpt_nsaved ≠ 0 then 1 else 0 := by
  unfold ptrace_cancel_bpt
  by_cases h : s.bpt_nsaved > 2
  · have h0 : s.bpt_nsaved ≠ 0 := by omega
    simp [h, h0]
  · simp [h]

theorem ptrace_cancel_bpt_negative (s : state) (h : s.bpt_nsaved < 0) :
    ptrace_cancel_bpt s = (1, { s with bpt_nsaved := 0 }) := by
  have h2 : ¬ s.bpt_nsaved > 2 := by omega
  have h0 : s.bpt_nsaved ≠ 0 := by omega
  have ht : s.bpt_nsaved.toNat = 0 := by omega
  simp [ptrace_cancel_bpt, h2, h0, ht, restore_bpts]

/-- C11, as stated, fails: right after `user_enable_single_step`, with no
breakpoint installed, `ptrace_cancel_bpt` makes no `write_int` call and
leaves the tracee memory as it is, yet it returns 1 (true), not false. -/
theorem cancel_bpt_sentinel_counterexample :
    stepping_task.bpt_nsaved = -1 ∧
    cancel_writes stepping_task = 0 ∧
    (ptrace_cancel_bpt stepping_task).2.mm = stepping_task.mm ∧
    ¬ ((ptrace_cancel_bpt stepping_task).1 = 0) := by
  refine ⟨rfl, rfl, rfl, ?_⟩
  decide

/-- C11, amended: `ptrace_cancel_bpt` returns 1 (true) exactly when
`bpt_nsaved` was non-zero and 0 (false) exactly when it was 0. It writes a
recorded pair back exactly when the count was at least 1. After
`user_enable_single_step` (the sentinel -1) it returns 1 and only resets
the count: nothing is written to tracee memory. -/
theorem cancel_bpt_true_iff_nonzero (s : state) :
    ((ptrace_cancel_bpt s).1 = 1 ↔ s.bpt_nsaved ≠ 0) ∧
    ((ptrace_cancel_bpt s).1 = 0 ↔ s.bpt_nsaved = 0) ∧
    (ptrace_cancel_bpt s).2 = restore_bpts (cancel_writes s) 0 { s with bpt_nsaved := 0 } ∧
    (1 ≤ cancel_writes s ↔ 1 ≤ s.bpt_nsaved) ∧
    ptrace_cancel_bpt (user_enable_single_step s) = (1, { s with bpt_nsaved := 0 }) := by
  refine ⟨?_, ?_, rfl, ?_, ?_⟩
  · rw [ptrace_cancel_bpt_fst]
    by_cases h : s.bpt_nsaved = 0 <;> simp [h]
  · rw [ptrace_cancel_bpt_fst]
    by_cases h : s.bpt_nsaved = 0 <;> simp [h]
  · unfold cancel_writes
    split <;> omega
  · exact ptrace_cancel_bpt_negative (user_enable_single_step s)
      (show (-1 : Int) < 0 by decide)

/-- C13: when `ptrace_cancel_bpt` finds `bpt_nsaved` greater than 2 it
returns 1, resets the count to 0 and makes exactly the two `write_int` calls
for the pairs with index 0 and 1, so no byte outside those two words
changes and nothing else in the state changes. For every starting state it
resets the count to 0, and its result is a function of the starting count
alone: it is the same whatever the tracee memory is, so whether or not the
writes succeed. The recorded words reach the tracee memory: when the write
at `bpt_addr[1]` succeeds the word there reads `bpt_insn[1]` afterwards,
when the write at `bpt_addr[0]` succeeds and the two words do not overlap
the word there reads `bpt_insn[0]`, and when both writes succeed the bytes
of the memory are the old bytes with the two words stored in that order;
which bytes can be copied never changes. -/
theorem cancel_bpt_clamps (s : state) (h : s.bpt_nsaved > 2) :
    ptrace_cancel_bpt s =
      (1, { s with
              bpt_nsaved := 0,
              mm := (write_int (write_int s.mm (s.bpt_addr 0) (s.bpt_insn 0)).2
                      (s.bpt_addr 1) (s.bpt_insn 1)).2 }) ∧
    (∀ x, (x < s.bpt_addr 0 ∨ s.bpt_addr 0 + 4 ≤ x) →
        (x < s.bpt_addr 1 ∨ s.bpt_addr 1 + 4 ≤ x) →
        (ptrace_cancel_bpt s).2.mm.byte x = s.mm.byte x) ∧
    (∀ t : state, (ptrace_cancel_bpt t).2.bpt_nsaved = 0 ∧
      (ptrace_cancel_bpt t).1 = (if t.bpt_nsaved ≠ 0 then 1 else 0) ∧
      ∀ m : vm, (ptrace_cancel_bpt { t with mm := m }).1 = (ptrace_cancel_bpt t).1) ∧
    ((write_int s.mm (s.bpt_addr 1) (s.bpt_insn 1)).1 = 0 →
      word_at (ptrace_cancel_bpt s).2.mm (s.bpt_addr 1) = s.bpt_insn 1 % 2 ^ 32) ∧
    ((write_int s.mm (s.bpt_addr 0) (s.bpt_insn 0)).1 = 0 →
      (s.bpt_addr 1 + 4 ≤ s.bpt_addr 0 ∨ s.bpt_addr 0 + 4 ≤ s.bpt_addr 1) →
      word_at (ptrace_cancel_bpt s).2.mm (s.bpt_addr 0) = s.bpt_insn 0 % 2 ^ 32) ∧
    ((write_int s.mm (s.bpt_addr 0) (s.bpt_insn 0)).1 = 0 →
      (write_int s.mm (s.bpt_addr 1) (s.bpt_insn 1)).1 = 0 →
      (ptrace_cancel_bpt s).2.mm.byte =
        store4 (store4 s.mm.byte (s.bpt_addr 0) (s.bpt_insn 0))
          (s.bpt_addr 1) (s.bpt_insn 1)) ∧
    (ptrace_cancel_bpt s).2.mm.rd = s.mm.rd ∧
    (ptrace_cancel_bpt s).2.mm.wr = s.mm.wr := by
  have hres : ptrace_cancel_bpt s =
      (1, { s with
              bpt_nsaved := 0,
              mm := (write_int (write_int s.mm (s.bpt_addr 0) (s.bpt_insn 0)).2
                      (s.bpt_addr 1) (s.bpt_insn 1)).2 }) := by
    simp [ptrace_cancel_bpt, h, restore_bpts]
  have hmm : (ptrace_cancel_bpt s).2.mm =
      (write_int (write_int s.mm (s.bpt_addr 0) (s.bpt_insn 0)).2
        (s.bpt_addr 1) (s.bpt_insn 1)).2 := by
    rw [hres]
  have hw1' : (write_int s.mm (s.bpt_addr 1) (s.bpt_insn 1)).1 = 0 →
      (write_int (write_int s.mm (s.bpt_addr 0) (s.bpt_insn 0)).2
        (s.bpt_addr 1) (s.bpt_insn 1)).1 = 0 := by
    intro hw1
    exact (write_int_fst_wr _ s.mm (s.bpt_addr 1) _ (s.bpt_insn 1) (by rfl)).trans hw1
  refine ⟨hres, ?_, ?_, ?_, ?_, ?_, by rw [hmm]; rfl, by rw [hmm]; rfl⟩
  · intro x hx0 hx1
    rw [hres]
    show (write_int (write_int s.mm _ _).2 _ _).2.byte x = _
    rw [write_int_frame _ _ _ x hx1, write_int_frame _ _ _ x hx0]
  · intro t
    refine ⟨ptrace_cancel_bpt_nsaved t, ptrace_cancel_bpt_fst t, ?_⟩
    intro m
    rw [ptrace_cancel_bpt_fst, ptrace_cancel_bpt_fst]
  · intro hw1
    rw [hmm, write_int_ok _ _ _ (hw1' hw1)]
    exact word_at_store4 _ _ _
  · intro hw0 hd
    rw [hmm, word_at_write_disjoint _ _ _ _ hd, write_int_ok _ _ _ hw0]
    exact word_at_store4 _ _ _
  · intro hw0 hw1
    rw [hmm, write_int_ok _ _ _ (hw1' hw1), write_int_ok _ _ _ hw0]

/-- C17: `user_enable_single_step` sets `bpt_nsaved` to -1 and changes
nothing else: the tracee memory, every register cell (stack page, `pcb`
fields, float state, `zero`) and the recorded addresses and words are the
same before and after, for every starting state. -/
theorem enable_single_step_frame (s : state) :
    (user_enable_single_step s).bpt_nsaved = -1 ∧
    (user_enable_single_step s).mm = s.mm ∧
    (user_enable_single_step s).stack = s.stack ∧
    (user_enable_single_step s).usp = s.usp ∧
    (user_enable_single_step s).unique = s.unique ∧
    (user_enable_single_step s).ieee_state = s.ieee_state ∧
    (user_enable_single_step s).zero = s.zero ∧
    (user_enable_single_step s).bpt_addr = s.bpt_addr ∧
    (user_enable_single_step s).bpt_insn = s.bpt_insn ∧
    user_enable_single_step s = { s with bpt_nsaved := -1 } :=
  ⟨rfl, rfl, rfl, rfl, rfl, rfl, rfl, rfl, rfl, rfl⟩

/-- Witness for C13: the armed branch task holds `BREAKINST` at 0x1004 and
at 0x1000 and has recorded the pairs (0x1004, 0x12345678) and
(0x1000, 0xc3ffffff); with the count corrupted to 3, the cancel writes the
two recorded words back over the traps and changes nothing else. -/
theorem cancel_bpt_clamps_witness :
    bogus_task.bpt_nsaved > 2 ∧
    bogus_task.bpt_addr 0 = 0x1004 ∧ bogus_task.bpt_insn 0 = 0x12345678 ∧
    bogus_task.bpt_addr 1 = 0x1000 ∧ bogus_task.bpt_insn 1 = 0xc3ffffff ∧
    word_at bogus_task.mm 0x1004 = BREAKINST ∧
    word_at bogus_task.mm 0x1000 = BREAKINST ∧
    (write_int bogus_task.mm (bogus_task.bpt_addr 0) (bogus_task.bpt_insn 0)).1 = 0 ∧
    (write_int bogus_task.mm (bogus_task.bpt_addr 1) (bogus_task.bpt_insn 1)).1 = 0 ∧
    (ptrace_cancel_bpt bogus_task).1 = 1 ∧
    (ptrace_cancel_bpt bogus_task).2.bpt_nsaved = 0 ∧
    word_at (ptrace_cancel_bpt bogus_task).2.mm 0x1004 = 0x12345678 ∧
    word_at (ptrace_cancel_bpt bogus_task).2.mm 0x1000 = 0xc3ffffff ∧
    word_at (ptrace_cancel_bpt bogus_task).2.mm (bogus_task.bpt_addr 1)
      = bogus_task.bpt_insn 1 % 2 ^ 32 ∧
    word_at (ptrace_cancel_bpt bogus_task).2.mm (bogus_task.bpt_addr 0)
      = bogus_task.bpt_insn 0 % 2 ^ 32 ∧
    (∀ x, (x < bogus_task.bpt_addr 0 ∨ bogus_task.bpt_addr 0 + 4 ≤ x) →
        (x < bogus_task.bpt_addr 1 ∨ bogus_task.bpt_addr 1 + 4 ≤ x) →
        (ptrace_cancel_bpt bogus_task).2.mm.byte x = bogus_task.mm.byte x) :=
  have h := cancel_bpt_clamps bogus_task (by decide)
  ⟨by decide, by decide, by decide, by decide, by decide, by decide, by decide,
    by decide, by decide, congrArg Prod.fst h.1, (h.2.2.1 bogus_task).1,
    by decide, by decide, h.2.2.2.1 (by decide), h.2.2.2.2.1 (by decide) (by decide),
    h.2.1⟩

theorem get_reg_zero_indep (A : arch) (t : state) (z q : Nat) :
    (get_reg A { t with zero := z } q).1 = (get_reg A t q).1 := by
  by_cases q30 : q = 30
  · subst q30; simp [get_reg, get_reg_addr, deref]
  · by_cases q65 : q = 65
    · subst q65; simp [get_reg, get_reg_addr, deref]
    · by_cases qz : q = 31 ∨ q > 65
      · have q63 : q ≠ 63 := by omega
        simp [get_reg, get_reg_addr, deref, q30, q65, q63, qz]
      · by_cases q63 : q = 63
        · subst q63; simp [get_reg, get_reg_addr, deref]
        · simp [get_reg, get_reg_addr, deref, q30, q65, q63, qz]

theorem get_reg_addr_fst (A : arch) (s t : state) (r : Nat) :
    (get_reg_addr A s r).1 = (get_reg_addr A t r).1 := by
  unfold get_reg_addr
  split_ifs <;> rfl

theorem get_reg_addr_snd (A : arch) (s : state) (r : Nat) :
    (get_reg_addr A s r).2 = s ∨ (get_reg_addr A s r).2 = { s with zero := 0 } := by
  unfold get_reg_addr
  split_ifs <;> simp

/-- C14: the address `get_reg_addr` returns depends on the register index
only, so two calls on an unchanged task return the same address; the only
thing a call can change is the variable `zero` (set to 0), and neither a
later `get_reg_addr` address nor a later `get_reg` value depends on it. -/
theorem get_reg_addr_pure (A : arch) (s : state) (r q : Nat) :
    (get_reg_addr A (get_reg_addr A s r).2 r).1 = (get_reg_addr A s r).1 ∧
    (∀ t : state, (get_reg_addr A t r).1 = (get_reg_addr A s r).1) ∧
    ((get_reg_addr A s r).2 = s ∨ (get_reg_addr A s r).2 = { s with zero := 0 }) ∧
    (get_reg_addr A (get_reg_addr A s r).2 q).1 = (get_reg_addr A s q).1 ∧
    (get_reg A (get_reg_addr A s r).2 q).1 = (get_reg A s q).1 := by
  refine ⟨get_reg_addr_fst A _ _ r, fun t => get_reg_addr_fst A _ _ r,
    get_reg_addr_snd A s r, get_reg_addr_fst A _ _ q, ?_⟩
  rcases get_reg_addr_snd A s r with h | h
  · rw [h]
  · rw [h]
    exact get_reg_zero_indep A s 0 q

/-- C20: there is a tracee state with a sequential instruction at PC and all
copies succeeding (the sequential task at PC = 0x1000, word 0x12345678 at
0x1004) on which `ptrace_set_bpt`, `ptrace_set_bpt`, `ptrace_cancel_bpt`
all succeed with PC unchanged, the second arm records `BREAKINST` as the
original word, and the final memory still has `BREAKINST` at PC+4 instead
of the word that was there before the first arm. -/
theorem double_arm_loses_insn :
    ∃ s : state,
      (get_reg sample_arch s REG_PC).1 = 0x1000 ∧
      read_int s.mm 0x1000 = .ok 0x47ff041f ∧
      (0x47ff041f >>> 26 < 0x30 ∧ 0x47ff041f >>> 26 ≠ 0x1a) ∧
      word_at s.mm 0x1004 = 0x12345678 ∧
      (ptrace_set_bpt sample_arch s).1 = 0 ∧
      (get_reg sample_arch (ptrace_set_bpt sample_arch s).2 REG_PC).1 = 0x1000 ∧
      (ptrace_set_bpt sample_arch (ptrace_set_bpt sample_arch s).2).1 = 0 ∧
      (ptrace_set_bpt sample_arch (ptrace_set_bpt sample_arch s).2).2.bpt_addr 0 = 0x1004 ∧
      (ptrace_set_bpt sample_arch (ptrace_set_bpt sample_arch s).2).2.bpt_insn 0
        = BREAKINST ∧
      (ptrace_cancel_bpt
        (ptrace_set_bpt sample_arch (ptrace_set_bpt sample_arch s).2).2).1 = 1 ∧
      word_at (ptrace_cancel_bpt
        (ptrace_set_bpt sample_arch (ptrace_set_bpt sample_arch s).2).2).2.mm 0x1004
        = BREAKINST ∧
      BREAKINST ≠ 0x12345678 := by
  refine ⟨seq_task, rfl, rfl, by decide, ?_, ?_, rfl, ?_, ?_, ?_, ?_, ?_, by decide⟩ <;>
    decide

theorem get_reg_nsaved (A : arch) (s : state) (r : Nat) :
    (get_reg A s r).2.bpt_nsaved = s.bpt_nsaved := by
  rcases get_reg_snd A s r with h | h <;> rw [h]

theorem schedule_bpts_nsaved (A : arch) (s : state) (pc insn : Nat) :
    (schedule_bpts A s pc insn).2.bpt_nsaved = s.bpt_nsaved ∧
    ((schedule_bpts A s pc insn).1 = 1 ∨ (schedule_bpts A s pc insn).1 = 2) := by
  unfold schedule_bpts
  simp only []
  split_ifs
  · exact ⟨rfl, Or.inr rfl⟩
  · exact ⟨rfl, Or.inl rfl⟩
  · exact ⟨get_reg_nsaved A s _, Or.inl rfl⟩
  · exact ⟨rfl, Or.inl rfl⟩

theorem install_bpts_nsaved (n i : Nat) (s : state) :
    (install_bpts n i s).2.bpt_nsaved = s.bpt_nsaved := by
  induction n generalizing i s with
  | zero => rfl
  | succ n ih =>
    simp only [install_bpts]
    split
    · rfl
    · split
      · rfl
      · rw [ih]
        rfl

/-- The count after `ptrace_set_bpt`: the number of scheduled breakpoints,
1 or 2, when it returns 0, and the old count otherwise. -/
theorem ptrace_set_bpt_nsaved (A : arch) (s : state) :
    ((ptrace_set_bpt A s).1 = 0 →
      (ptrace_set_bpt A s).2.bpt_nsaved = 1 ∨ (ptrace_set_bpt A s).2.bpt_nsaved = 2) ∧
    ((ptrace_set_bpt A s).1 ≠ 0 → (ptrace_set_bpt A s).2.bpt_nsaved = s.bpt_nsaved) := by
  cases hf : read_int s.mm (s.stack (PT_REG A .pc)) with
  | error e =>
    have he := read_int_error _ _ _ hf
    have hres : ptrace_set_bpt A s = (- EIO, s) := by
      simp only [ptrace_set_bpt, get_reg_pc, hf, he]
    rw [hres]
    exact ⟨fun h => absurd h (show ¬ (- EIO : Int) = 0 by decide), fun _ => rfl⟩
  | ok insn =>
    have hs := schedule_bpts_nsaved A s (s.stack (PT_REG A .pc)) insn
    by_cases hlt : (install_bpts (schedule_bpts A s (s.stack (PT_REG A .pc)) insn).1 0
        (schedule_bpts A s (s.stack (PT_REG A .pc)) insn).2).1 < 0
    · have hres : ptrace_set_bpt A s =
          install_bpts (schedule_bpts A s (s.stack (PT_REG A .pc)) insn).1 0
            (schedule_bpts A s (s.stack (PT_REG A .pc)) insn).2 := by
        simp only [ptrace_set_bpt, get_reg_pc, hf, hlt, if_true]
      rw [hres]
      refine ⟨fun h => by omega, fun _ => ?_⟩
      rw [install_bpts_nsaved, hs.1]
    · have hres : (ptrace_set_bpt A s).1 = 0 ∧ (ptrace_set_bpt A s).2.bpt_nsaved =
          ((schedule_bpts A s (s.stack (PT_REG A .pc)) insn).1 : Int) := by
        simp only [ptrace_set_bpt, get_reg_pc, hf, hlt, if_false, and_self]
      refine ⟨fun _ => ?_, fun h => absurd hres.1 h⟩
      rw [hres.2]
      rcases hs.2 with h | h
      · left
        simp [h]
      · right
        simp [h]

theorem apply_op_count_ok (A : arch) (t : state) (op : step_op) (h : count_ok t) :
    count_ok (apply_op A t op) := by
  cases op with
  | arm =>
    have hn := ptrace_set_bpt_nsaved A t
    by_cases hr : (ptrace_set_bpt A t).1 = 0
    · rcases hn.1 hr with h1 | h2
      · exact Or.inr (Or.inl h1)
      · exact Or.inr (Or.inr (Or.inl h2))
    · unfold count_ok apply_op
      rw [hn.2 hr]
      exact h
  | cancel => exact Or.inl (ptrace_cancel_bpt_nsaved t)
  | enable_step => exact Or.inr (Or.inr (Or.inr rfl))
  | disable_step => exact Or.inl (ptrace_cancel_bpt_nsaved t)

theorem run_ops_count_ok (A : arch) (ops : List step_op) (t : state) (h : count_ok t) :
    count_ok (run_ops A t ops) := by
  induction ops generalizing t with
  | nil => exact h
  | cons op ops ih => exact ih _ (apply_op_count_ok A t op h)

/-- C12: starting from any state with `bpt_nsaved = 0`, after any sequence
of arm (`ptrace_set_bpt`, succeeding or failing), cancel, enable_step and
disable_step the count is 0, 1, 2 or the sentinel -1; each operation keeps
the count in that set from any state where it is in it; and an arm that
returns 0 records a count of 1 or 2. -/
theorem pending_count_invariant (A : arch) (s : state) (h0 : s.bpt_nsaved = 0)
    (ops : List step_op) :
    count_ok (run_ops A s ops) ∧
    (∀ (t : state) (op : step_op), count_ok t → count_ok (apply_op A t op)) ∧
    (∀ t : state, (ptrace_set_bpt A t).1 = 0 →
      (ptrace_set_bpt A t).2.bpt_nsaved = 1 ∨ (ptrace_set_bpt A t).2.bpt_nsaved = 2) :=
  ⟨run_ops_count_ok A ops s (Or.inl h0), fun t op h => apply_op_count_ok A t op h,
    fun t => (ptrace_set_bpt_nsaved A t).1⟩

/-- Witness for C12: a run on the branch task that passes through the
counts -1, 0, 2, 2 (a second arm), 0 and -1. -/
theorem pending_count_invariant_witness :
    branch_task.bpt_nsaved = 0 ∧
    (run_ops sample_arch branch_task [.enable_step]).bpt_nsaved = -1 ∧
    (run_ops sample_arch branch_task [.enable_step, .cancel, .arm]).bpt_nsaved = 2 ∧
    count_ok (run_ops sample_arch branch_task
      [.enable_step, .cancel, .arm, .arm, .disable_step, .enable_step]) :=
  ⟨rfl, by decide, by decide,
    (pending_count_invariant sample_arch branch_task rfl
      [.enable_step, .cancel, .arm, .arm, .disable_step, .enable_step]).1⟩

/-! ## Jump decoding: theorems -/

theorem reg_b_eq (insn : Nat) : (insn >>> 16) &&& 0x1f = base_field_20_16 insn := by
  unfold base_field_20_16
  rw [Nat.shiftRight_eq_div_pow]
  exact Nat.and_pow_two_sub_one_eq_mod _ 5

theorem install_bpts_bpt_addr (n i : Nat) (s : state) :
    (install_bpts n i s).2.bpt_addr = s.bpt_addr := by
  induction n generalizing i s with
  | zero => rfl
  | succ n ih =>
    simp only [install_bpts]
    split
    · rfl
    · split
      · rfl
      · rw [ih]
        rfl

theorem ptrace_set_bpt_bpt_addr (A : arch) (s : state) (insn : Nat)
    (hf : read_int s.mm (s.stack (PT_REG A .pc)) = .ok insn) :
    (ptrace_set_bpt A s).2.bpt_addr =
      (schedule_bpts A s (s.stack (PT_REG A .pc)) insn).2.bpt_addr := by
  by_cases hlt : (install_bpts (schedule_bpts A s (s.stack (PT_REG A .pc)) insn).1 0
      (schedule_bpts A s (s.stack (PT_REG A .pc)) insn).2).1 < 0
  · have hres : ptrace_set_bpt A s =
        install_bpts (schedule_bpts A s (s.stack (PT_REG A .pc)) insn).1 0
          (schedule_bpts A s (s.stack (PT_REG A .pc)) insn).2 := by
      simp only [ptrace_set_bpt, get_reg_pc, hf, hlt, if_true]
    rw [hres, install_bpts_bpt_addr]
  · have hres : (ptrace_set_bpt A s).2.bpt_addr =
        (install_bpts (schedule_bpts A s (s.stack (PT_REG A .pc)) insn).1 0
          (schedule_bpts A s (s.stack (PT_REG A .pc)) insn).2).2.bpt_addr := by
      simp only [ptrace_set_bpt, get_reg_pc, hf, hlt, if_false]
    rw [hres, install_bpts_bpt_addr]

theorem schedule_bpts_jump (A : arch) (s : state) (pc insn : Nat)
    (hop : insn >>> 26 = 0x1a) :
    schedule_bpts A s pc insn =
      (1, set_bpt_addr (get_reg A s (base_field_20_16 insn)).2 0
            (get_reg A s (base_field_20_16 insn)).1) := by
  unfold schedule_bpts
  simp only [hop, if_true, reg_b_eq]
  rw [if_neg (by decide)]

/-- C15, as stated, fails: the jump task holds `jmp $31,($27)` (0x6bfb0000,
bit 21 set, bits [21:16] = 59); the arm schedules the value of register 27
(0x2000), not the value of register 59 (0). -/
theorem jump_base_field_counterexample :
    read_int jump_task.mm (get_reg sample_arch jump_task REG_PC).1 = .ok 0x6bfb0000 ∧
    0x6bfb0000 >>> 26 = 0x1a ∧
    (0x6bfb0000 : Nat).testBit 21 = true ∧
    base_field_21_16 0x6bfb0000 = 59 ∧
    (get_reg sample_arch jump_task (base_field_21_16 0x6bfb0000)).1 = 0 ∧
    (ptrace_set_bpt sample_arch jump_task).2.bpt_addr 0 = 0x2000 ∧
    ¬ ((ptrace_set_bpt sample_arch jump_task).2.bpt_addr 0
        = (get_reg sample_arch jump_task (base_field_21_16 0x6bfb0000)).1) := by
  refine ⟨rfl, by decide, by decide, by decide, rfl, by decide, by decide⟩

/-- C15, amended: for an indirect jump (top six bits 0x1a) the register
whose value the arm schedules as the sole successor is numbered by bits
[20:16] of the instruction word, the value of `(insn >> 16) & 0x1f`, an
index below 32; bit 21 and all other bits outside that field are ignored. -/
theorem jump_base_register (A : arch) (s : state) (insn : Nat)
    (hfetch : read_int s.mm (get_reg A s REG_PC).1 = .ok insn)
    (hop : insn >>> 26 = 0x1a) :
    (insn >>> 16) &&& 0x1f = base_field_20_16 insn ∧
    base_field_20_16 insn < 32 ∧
    (schedule_bpts A s (get_reg A s REG_PC).1 insn).1 = 1 ∧
    (ptrace_set_bpt A s).2.bpt_addr 0 = (get_reg A s (base_field_20_16 insn)).1 ∧
    (∀ insn' : Nat, base_field_20_16 insn' = base_field_20_16 insn →
      insn' >>> 26 = 0x1a →
      (schedule_bpts A s (get_reg A s REG_PC).1 insn')
        = (schedule_bpts A s (get_reg A s REG_PC).1 insn)) := by
  rw [get_reg_pc] at hfetch ⊢
  simp only at hfetch ⊢
  refine ⟨reg_b_eq insn, ?_, ?_, ?_, ?_⟩
  · unfold base_field_20_16
    exact Nat.mod_lt _ (by decide)
  · rw [schedule_bpts_jump A s _ insn hop]
  · rw [ptrace_set_bpt_bpt_addr A s insn hfetch, schedule_bpts_jump A s _ insn hop]
    simp [set_bpt_addr]
  · intro insn' hf hop'
    rw [schedule_bpts_jump A s _ insn hop, schedule_bpts_jump A s _ insn' hop', hf]

/-- Witness for C15 on the jump task: register 27 is selected although bit
21 of the instruction is set. -/
theorem jump_base_register_witness :
    read_int jump_task.mm (get_reg sample_arch jump_task REG_PC).1 = .ok 0x6bfb0000 ∧
    0x6bfb0000 >>> 26 = 0x1a ∧
    base_field_20_16 0x6bfb0000 = 27 ∧
    (ptrace_set_bpt sample_arch jump_task).2.bpt_addr 0
      = (get_reg sample_arch jump_task (base_field_20_16 0x6bfb0000)).1 :=
  ⟨rfl, by decide, by decide,
    (jump_base_register sample_arch jump_task 0x6bfb0000 rfl (by decide)).2.2.2.1⟩

/-! ## The offset table: theorems -/

theorem regoff_length (A : arch) : (regoff A).length = 65 := rfl

theorem regoff_getD (A : arch) (regno : Nat) (h : regno < 65) :
    (regoff A)[regno]? = some ((regoff A).getD regno 0) := by
  have hlt : regno < (regoff A).length := by rw [regoff_length]; exact h
  rw [List.getD_eq_getElem?_getD, List.getElem?_eq_getElem hlt]
  rfl

theorem get_reg_addr_table (A : arch) (s : state) (regno : Nat) (off : Int)
    (h : (get_reg_addr A s regno).1 = .stack_page off) :
    regno ≤ 64 ∧ regno ≠ 30 ∧ regno ≠ 31 ∧ off = (regoff A).getD regno 0 := by
  unfold get_reg_addr at h
  split_ifs at h with h30 h65 hz
  · refine ⟨by omega, h30, by omega, ?_⟩
    simp only [reg_addr.stack_page.injEq] at h
    exact h.symm

/-- C19: the table has 65 entries; `get_reg_addr` returns a stack-page
address (takes the table branch) exactly for the indices 0..64 other than 30
and 31, so the index it looks up is inside the table and is never one of the
two `-1` placeholders at 30 and 31, and the offset it uses is the table
entry at that index. The register index `ptrace_set_bpt` decodes from a jump
instruction is below 32. -/
theorem table_lookup_in_bounds (A : arch) (s : state) (regno : Nat) :
    (regoff A).length = 65 ∧
    (regoff A)[30]? = some (-1) ∧ (regoff A)[31]? = some (-1) ∧
    ((∃ off, (get_reg_addr A s regno).1 = .stack_page off) ↔
      (regno ≤ 64 ∧ regno ≠ 30 ∧ regno ≠ 31)) ∧
    (∀ off, (get_reg_addr A s regno).1 = .stack_page off →
      regno < (regoff A).length ∧ regno ≠ 30 ∧ regno ≠ 31 ∧
      (regoff A)[regno]? = some off) ∧
    (∀ pc insn : Nat, insn >>> 26 = 0x1a →
      (insn >>> 16) &&& 0x1f < 32 ∧
      schedule_bpts A s pc insn =
        (1, set_bpt_addr (get_reg A s ((insn >>> 16) &&& 0x1f)).2 0
              (get_reg A s ((insn >>> 16) &&& 0x1f)).1)) := by
  refine ⟨rfl, rfl, rfl, ⟨?_, ?_⟩, ?_, ?_⟩
  · rintro ⟨off, h⟩
    obtain ⟨h1, h2, h3, _⟩ := get_reg_addr_table A s regno off h
    exact ⟨h1, h2, h3⟩
  · rintro ⟨h1, h2, h3⟩
    have h65 : regno ≠ 65 := by omega
    have hz : ¬ (regno = 31 ∨ regno > 65) := by omega
    exact ⟨(regoff A).getD regno 0, by simp [get_reg_addr, h2, h65, hz]⟩
  · intro off h
    obtain ⟨h1, h2, h3, h4⟩ := get_reg_addr_table A s regno off h
    refine ⟨by rw [regoff_length]; omega, h2, h3, ?_⟩
    rw [h4]
    exact regoff_getD A regno (by omega)
  · intro pc insn hop
    refine ⟨Nat.lt_succ_of_le Nat.and_le_right, ?_⟩
    rw [schedule_bpts_jump A s pc insn hop, reg_b_eq]

/-! ## Register independence: lemmas -/

theorem regoff_getD_slot (A : arch) (i : Nat) (h : i < 65) :
    (regoff A).getD i 0 = slot_off A (regslot.getD i none) := by
  interval_cases i <;> rfl

set_option maxRecDepth 100000 in
theorem regslot_ok_true : regslot_ok = true := by decide

theorem regslot_distinct (i j : Nat) (hi : stored_index i) (hj : stored_index j)
    (hij : i ≠ j) :
    slot_member (regslot.getD i none) = true ∧
    regslot.getD i none ≠ regslot.getD j none := by
  obtain ⟨hi64, hi30, hi31⟩ := hi
  obtain ⟨hj64, hj30, hj31⟩ := hj
  have h := regslot_ok_true
  unfold regslot_ok at h
  rw [List.all_eq_true] at h
  have h1 := h i (List.mem_range.2 (by omega))
  simp only [Bool.or_eq_true, beq_iff_eq, hi30, hi31, false_or, Bool.and_eq_true,
    List.all_eq_true] at h1
  refine ⟨h1.1, ?_⟩
  have h2 := h1.2 j (List.mem_range.2 (by omega))
  simpa [hij, hj30, hj31] using h2

theorem slot_off_sep (A : arch) (hL : layout_ok A) (t u : Option frame_slot)
    (ht : slot_member t = true) (hu : slot_member u = true) (h : t ≠ u) :
    slot_off A t + 8 ≤ slot_off A u ∨ slot_off A u + 8 ≤ slot_off A t := by
  obtain ⟨hpp, hpf, hss, hsf⟩ := hL
  match t, u with
  | some (.pt f), some (.pt g) =>
    have hfg : f ≠ g := fun e => h (by rw [e])
    have := hpp f g hfg
    simp only [slot_off, PT_REG]
    omega
  | some (.pt f), some (.sw g) =>
    have := hsf g hu
    simp only [slot_off, PT_REG, SW_REG]
    omega
  | some (.sw f), some (.pt g) =>
    have := hsf f ht
    simp only [slot_off, PT_REG, SW_REG]
    omega
  | some (.sw f), some (.sw g) =>
    have hfg : f ≠ g := fun e => h (by rw [e])
    have := hss f g ht hu hfg
    simp only [slot_off, SW_REG]
    omega
  | none, _ => exact absurd ht (by simp [slot_member])
  | some _, none => exact absurd hu (by simp [slot_member])

/-- Two distinct stored indices have slots at least 8 bytes apart. -/
theorem regoff_sep (A : arch) (hL : layout_ok A) (i j : Nat)
    (hi : stored_index i) (hj : stored_index j) (hij : i ≠ j) :
    (regoff A).getD i 0 + 8 ≤ (regoff A).getD j 0 ∨
    (regoff A).getD j 0 + 8 ≤ (regoff A).getD i 0 := by
  rw [regoff_getD_slot A i (by unfold stored_index at hi; omega),
    regoff_getD_slot A j (by unfold stored_index at hj; omega)]
  exact slot_off_sep A hL _ _ (regslot_distinct i j hi hj hij).1
    (regslot_distinct j i hj hi (Ne.symm hij)).1 (regslot_distinct i j hi hj hij).2

theorem put_reg_stored (A : arch) (s : state) (i v : Nat) (hi : stored_index i)
    (h63 : i ≠ 63) :
    (put_reg A s i v).2 =
      { s with stack := fun o => if o = (regoff A).getD i 0 then v else s.stack o } := by
  obtain ⟨h64, h30, h31⟩ := hi
  have h65 : i ≠ 65 := by omega
  have hz : ¬ (i = 31 ∨ i > 65) := by omega
  simp [put_reg, get_reg_addr, assign, h30, h65, h63, hz]

theorem get_reg_stack_indep (A : arch) (s : state) (o : Int) (d j : Nat)
    (h : stored_index j → (regoff A).getD j 0 ≠ o) :
    (get_reg A { s with stack := fun x => if x = o then d else s.stack x } j).1
      = (get_reg A s j).1 := by
  by_cases j30 : j = 30
  · subst j30; simp [get_reg, get_reg_addr, deref]
  · by_cases j65 : j = 65
    · subst j65; simp [get_reg, get_reg_addr, deref]
    · by_cases jz : j = 31 ∨ j > 65
      · have j63 : j ≠ 63 := by omega
        simp [get_reg, get_reg_addr, deref, j30, j65, j63, jz]
      · have hs : stored_index j := ⟨by omega, j30, by omega⟩
        have hne := h hs
        rw [List.getD_eq_getElem?_getD] at hne
        by_cases j63 : j = 63
        · subst j63
          simp only [get_reg, get_reg_addr, deref] at hne ⊢
          simp [hne]
        · simp [get_reg, get_reg_addr, deref, j30, j65, j63, jz, hne]

theorem get_reg_usp_indep (A : arch) (s : state) (d j : Nat) (h : j ≠ 30) :
    (get_reg A { s with usp := d } j).1 = (get_reg A s j).1 := by
  by_cases j65 : j = 65
  · subst j65; simp [get_reg, get_reg_addr, deref]
  · by_cases jz : j = 31 ∨ j > 65
    · have j63 : j ≠ 63 := by omega
      simp [get_reg, get_reg_addr, deref, h, j65, j63, jz]
    · by_cases j63 : j = 63
      · subst j63; simp [get_reg, get_reg_addr, deref]
      · simp [get_reg, get_reg_addr, deref, h, j65, j63, jz]

theorem get_reg_unique_indep (A : arch) (s : state) (d j : Nat) (h : j ≠ 65) :
    (get_reg A { s with unique := d } j).1 = (get_reg A s j).1 := by
  by_cases j30 : j = 30
  · subst j30; simp [get_reg, get_reg_addr, deref]
  · by_cases jz : j = 31 ∨ j > 65
    · have j63 : j ≠ 63 := by omega
      simp [get_reg, get_reg_addr, deref, h, j30, j63, jz]
    · by_cases j63 : j = 63
      · subst j63; simp [get_reg, get_reg_addr, deref]
      · simp [get_reg, get_reg_addr, deref, h, j30, j63, jz]

theorem put_reg_zero_aliased (A : arch) (s : state) (i v : Nat) (hi : zero_aliased i) :
    (put_reg A s i v).2 = { s with zero := v } := by
  have h30 : i ≠ 30 := by unfold zero_aliased at hi; omega
  have h65 : i ≠ 65 := by unfold zero_aliased at hi; omega
  have h63 : i ≠ 63 := by unfold zero_aliased at hi; omega
  have hz : i = 31 ∨ i > 65 := hi
  simp [put_reg, get_reg_addr, assign, h30, h65, h63, hz]

/-! ## Register independence: theorems -/

/-- C18: when the members of the two saved-context blocks are laid out as C
lays out structure members (`layout_ok`), then for distinct indices `i`,
`j` with `i` in 0..65 and `i ≠ 63`, `put_reg` of `i` leaves the value
`get_reg` returns for `j` (any index, so also those in 0..65) unchanged. The table sends two distinct stored indices to
slots at least 8 bytes apart, a stored index never resolves to `pcb.usp`
or `pcb.unique`, and a `put_reg` through a zero-aliased index (31 or above
65) changes the value of no register. -/
theorem put_reg_independent (A : arch) (hL : layout_ok A) (s : state) (i j v : Nat)
    (hi : i ≤ 65) (hij : i ≠ j) (h63 : i ≠ 63) :
    (get_reg A (put_reg A s i v).2 j).1 = (get_reg A s j).1 ∧
    (∀ a b : Nat, stored_index a → stored_index b → a ≠ b →
      (regoff A).getD a 0 + 8 ≤ (regoff A).getD b 0 ∨
      (regoff A).getD b 0 + 8 ≤ (regoff A).getD a 0) ∧
    (∀ a : Nat, stored_index a →
      (get_reg_addr A s a).1 = .stack_page ((regoff A).getD a 0) ∧
      (get_reg_addr A s a).1 ≠ .usp ∧ (get_reg_addr A s a).1 ≠ .unique ∧
      (get_reg_addr A s 30).1 = .usp ∧ (get_reg_addr A s 65).1 = .unique) ∧
    (∀ z q w : Nat, zero_aliased z →
      (get_reg A (put_reg A s z w).2 q).1 = (get_reg A s q).1) := by
  refine ⟨?_, fun a b ha hb hab => regoff_sep A hL a b ha hb hab, ?_, ?_⟩
  · by_cases i30 : i = 30
    · subst i30
      have hp : (put_reg A s 30 v).2 = { s with usp := v } := by
        simp [put_reg, get_reg_addr, assign]
      rw [hp]
      exact get_reg_usp_indep A s v j (Ne.symm hij)
    · by_cases i65 : i = 65
      · subst i65
        have hp : (put_reg A s 65 v).2 = { s with unique := v } := by
          simp [put_reg, get_reg_addr, assign]
        rw [hp]
        exact get_reg_unique_indep A s v j (Ne.symm hij)
      · by_cases i31 : i = 31
        · rw [put_reg_zero_aliased A s i v (Or.inl i31)]
          exact get_reg_zero_indep A s v j
        · have his : stored_index i := ⟨by omega, i30, i31⟩
          rw [put_reg_stored A s i v his h63]
          apply get_reg_stack_indep
          intro hjs
          have := regoff_sep A hL i j his hjs hij
          omega
  · intro a ha
    obtain ⟨h64, h30, h31⟩ := ha
    have h65 : a ≠ 65 := by omega
    have hz : ¬ (a = 31 ∨ a > 65) := by omega
    simp [get_reg_addr, h30, h65, hz]
  · intro z q w hz
    rw [put_reg_zero_aliased A s z w hz]
    exact get_reg_zero_indep A s w q

theorem sample_arch_layout_ok : layout_ok sample_arch := by
  refine ⟨?_, ?_, ?_, ?_⟩
  · intro f g h
    cases f <;> cases g <;> first | exact absurd rfl h | decide
  · intro f
    cases f <;> decide
  · intro f g hf hg h
    cases f <;> cases g <;> simp [sample_arch, sw_member] at * <;> omega
  · intro g hg
    cases g <;> simp [sample_arch, sw_member] at *
    omega

/-- Witness for C18 on the sample layout: writing register 9 (a switch-frame
slot) leaves the program counter (register 64, a trap-frame slot) at 0x1000. -/
theorem put_reg_independent_witness :
    layout_ok sample_arch ∧ 9 ≤ 65 ∧ 9 ≠ 64 ∧ 9 ≠ 63 ∧
    (get_reg sample_arch (put_reg sample_arch seq_task 9 7).2 9).1 = 7 ∧
    (get_reg sample_arch seq_task 64).1 = 0x1000 ∧
    (get_reg sample_arch (put_reg sample_arch seq_task 9 7).2 64).1
      = (get_reg sample_arch seq_task 64).1 :=
  ⟨sample_arch_layout_ok, by decide, by decide, by decide, by decide, by decide,
    (put_reg_independent sample_arch sample_arch_layout_ok seq_task 9 64 7
      (by decide) (by decide) (by decide)).1⟩

/-! ## The float control register: theorems -/

theorem and_and_of_sub (x M K : Nat) (h : M &&& K = K) : (x &&& M) &&& K = x &&& K := by
  rw [Nat.and_assoc, h]

theorem xor_and_of_sub (c x M K : Nat) (h : M &&& K = K) :
    (c ^^^ (x &&& M)) &&& K = (c ^^^ x) &&& K := by
  apply Nat.eq_of_testBit_eq
  intro i
  have hk := congrArg (fun n => n.testBit i) h
  simp only [Nat.testBit_and, Nat.testBit_xor] at hk ⊢
  cases hK : K.testBit i <;> cases hM : M.testBit i <;> simp_all

/-- The helper of `fpu_arch` reads only the software-mask bits of its
argument. -/
theorem fpu_arch_sw_only (x : Nat) :
    fpu_arch.ieee_swcr_to_fpcr x
      = fpu_arch.ieee_swcr_to_fpcr (x &&& fpu_arch.IEEE_SW_MASK) := by
  show _ = _
  simp only [fpu_arch]
  rw [and_and_of_sub x 0x7e307e 0x7e0000 (by decide),
    and_and_of_sub x 0x7e307e 0x1000 (by decide),
    and_and_of_sub x 0x7e307e 0x2000 (by decide),
    xor_and_of_sub (2 ^ 64 - 1) x 0x7e307e 0xe (by decide),
    xor_and_of_sub (2 ^ 64 - 1) x 0x7e307e 0x30 (by decide),
    xor_and_of_sub (2 ^ 64 - 1) x 0x7e307e 0x40 (by decide)]

theorem get_reg_ieee_indep (A : arch) (s : state) (d j : Nat) (h : j ≠ 63) :
    (get_reg A { s with ieee_state := d } j).1 = (get_reg A s j).1 := by
  by_cases j30 : j = 30
  · subst j30; simp [get_reg, get_reg_addr, deref]
  · by_cases j65 : j = 65
    · subst j65; simp [get_reg, get_reg_addr, deref]
    · by_cases jz : j = 31 ∨ j > 65
      · simp [get_reg, get_reg_addr, deref, j30, j65, h, jz]
      · simp [get_reg, get_reg_addr, deref, j30, j65, h, jz]

theorem put_reg_63 (A : arch) (s : state) (v : Nat) :
    put_reg A s 63 v =
      (0, { s with
              ieee_state := (s.ieee_state &&& ((2 ^ 64 - 1) ^^^ A.IEEE_SW_MASK))
                ||| (v &&& A.IEEE_SW_MASK),
              stack := fun o =>
                if o = SW_REG A (.fp 31)
                then (v &&& A.FPCR_DYN_MASK) ||| A.ieee_swcr_to_fpcr v
                else s.stack o }) := by
  simp [put_reg, get_reg_addr, assign, regoff]

/-- C16: `put_reg` of register 63 with value `v` returns 0 and splits `v`.
The float-state word becomes (old word with the software-mask bits cleared)
OR (`v` AND `IEEE_SW_MASK`): every bit outside the mask keeps its old value
and every bit inside it is the bit of `v`. The cell `get_reg_addr` gives for
63, the switch-frame slot `fp[31]`, receives (`v` AND `FPCR_DYN_MASK`) OR
`ieee_swcr_to_fpcr(v)`, which is the control word derived from the
software-mask bits of `v` whenever the helper reads only those bits. When
the old float-state word and the mask fit in 32 bits, so does the new word.
No other cell changes, and under `layout_ok` no other register reads
differently. -/
theorem put_reg_fpcr_split (A : arch) (s : state) (v : Nat)
    (hs : s.ieee_state < 2 ^ 64) :
    (put_reg A s 63 v).1 = 0 ∧
    (put_reg A s 63 v).2.ieee_state
      = (s.ieee_state &&& ((2 ^ 64 - 1) ^^^ A.IEEE_SW_MASK)) ||| (v &&& A.IEEE_SW_MASK) ∧
    (∀ i, A.IEEE_SW_MASK.testBit i = false →
      (put_reg A s 63 v).2.ieee_state.testBit i = s.ieee_state.testBit i) ∧
    (∀ i, A.IEEE_SW_MASK.testBit i = true →
      (put_reg A s 63 v).2.ieee_state.testBit i = v.testBit i) ∧
    (s.ieee_state < 2 ^ 32 → A.IEEE_SW_MASK < 2 ^ 32 →
      (put_reg A s 63 v).2.ieee_state < 2 ^ 32) ∧
    (get_reg_addr A s 63).1 = .stack_page (SW_REG A (.fp 31)) ∧
    deref (put_reg A s 63 v).2 (get_reg_addr A s 63).1
      = (v &&& A.FPCR_DYN_MASK) ||| A.ieee_swcr_to_fpcr v ∧
    ((∀ x, A.ieee_swcr_to_fpcr x = A.ieee_swcr_to_fpcr (x &&& A.IEEE_SW_MASK)) →
      deref (put_reg A s 63 v).2 (get_reg_addr A s 63).1
        = (v &&& A.FPCR_DYN_MASK) ||| A.ieee_swcr_to_fpcr (v &&& A.IEEE_SW_MASK)) ∧
    (∀ o, o ≠ SW_REG A (.fp 31) → (put_reg A s 63 v).2.stack o = s.stack o) ∧
    (put_reg A s 63 v).2.usp = s.usp ∧
    (put_reg A s 63 v).2.unique = s.unique ∧
    (put_reg A s 63 v).2.zero = s.zero ∧
    (put_reg A s 63 v).2.mm = s.mm ∧
    (put_reg A s 63 v).2.bpt_nsaved = s.bpt_nsaved ∧
    (put_reg A s 63 v).2.bpt_addr = s.bpt_addr ∧
    (put_reg A s 63 v).2.bpt_insn = s.bpt_insn ∧
    (layout_ok A → ∀ j, j ≠ 63 →
      (get_reg A (put_reg A s 63 v).2 j).1 = (get_reg A s j).1) := by
  have haddr : (get_reg_addr A s 63).1 = .stack_page (SW_REG A (.fp 31)) := by
    simp [get_reg_addr, regoff]
  rw [put_reg_63, haddr]
  refine ⟨rfl, rfl, ?_, ?_, ?_, rfl, ?_, ?_, ?_, rfl, rfl, rfl, rfl, rfl, rfl, rfl, ?_⟩
  · intro i hi
    simp only [Nat.testBit_or, Nat.testBit_and, Nat.testBit_xor,
      Nat.testBit_two_pow_sub_one, hi, Bool.and_false, Bool.or_false, Bool.xor_false]
    by_cases h64 : i < 64
    · simp [h64]
    · have hlt : s.ieee_state < 2 ^ i :=
        lt_of_lt_of_le hs (Nat.pow_le_pow_right (by decide) (by omega))
      simp [h64, Nat.testBit_lt_two_pow hlt]
  · intro i hi
    simp only [Nat.testBit_or, Nat.testBit_and, Nat.testBit_xor,
      Nat.testBit_two_pow_sub_one, hi, Bool.and_true]
    by_cases h64 : i < 64
    · simp [h64]
    · have hlt : s.ieee_state < 2 ^ i :=
        lt_of_lt_of_le hs (Nat.pow_le_pow_right (by decide) (by omega))
      simp [h64, Nat.testBit_lt_two_pow hlt]
  · intro h32 hm
    exact Nat.or_lt_two_pow (lt_of_le_of_lt Nat.and_le_left h32) (Nat.and_lt_two_pow _ hm)
  · simp [deref]
  · intro hsw
    simp only [deref, if_true]
    rw [← hsw v]
  · intro o ho
    simp [ho]
  · intro hL j hj
    have hne : stored_index j → (regoff A).getD j 0 ≠ SW_REG A (.fp 31) := by
      intro hjs
      have h63 : stored_index 63 := ⟨by decide, by decide, by decide⟩
      have hsep := regoff_sep A hL j 63 hjs h63 hj
      have e : (regoff A).getD 63 0 = SW_REG A (.fp 31) := rfl
      rw [e] at hsep
      omega
    have hstack := get_reg_stack_indep A s (SW_REG A (.fp 31))
      ((v &&& A.FPCR_DYN_MASK) ||| A.ieee_swcr_to_fpcr v) j hne
    rw [← hstack]
    exact get_reg_ieee_indep A
      { s with stack := fun x => if x = SW_REG A (.fp 31) then _ else s.stack x } _ j hj

/-- Witness for C16 on `fpu_arch`: writing 0x4000000080000004 to register 63
keeps bit 31 of the float state, replaces the trap enables by those of the
value, and stores the dynamic-mode bits with the control word derived from
the software-mask bits. -/
theorem put_reg_fpcr_split_witness :
    fpu_task.ieee_state < 2 ^ 64 ∧
    (put_reg fpu_arch fpu_task 63 0x4000000080000004).2.ieee_state = 0x80000004 ∧
    deref (put_reg fpu_arch fpu_task 63 0x4000000080000004).2
        (get_reg_addr fpu_arch fpu_task 63).1
      = (0x4000000080000004 &&& fpu_arch.FPCR_DYN_MASK) |||
          fpu_arch.ieee_swcr_to_fpcr (0x4000000080000004 &&& fpu_arch.IEEE_SW_MASK) ∧
    (get_reg fpu_arch (put_reg fpu_arch fpu_task 63 0x4000000080000004).2 64).1
      = (get_reg fpu_arch fpu_task 64).1 :=
  have h := put_reg_fpcr_split fpu_arch fpu_task 0x4000000080000004 (by decide)
  ⟨by decide, by decide, h.2.2.2.2.2.2.2.1 fpu_arch_sw_only,
    h.2.2.2.2.2.2.2.2.2.2.2.2.2.2.2.2 sample_arch_layout_ok 64 (by decide)⟩

end AlphaPtrace
